import Mathlib

/-!
# Cluster membership and mailbox core (`src/rpc/core/cluster.cc`)

A shallow embedding of `cluster_t` and of the operations defined in
`cluster.cc`, and of the registration test of
`src/unittest/clustering_registration.cc`, followed by theorems about them.

Conventions of the embedding.

* `std::map<int, V>` is a list of key/value pairs kept in increasing key
  order by `StdMap.insert`; `StdMap.index` is `operator[]`, which inserts a
  default value under a missing key.
* A `boost::shared_ptr<cluster_peer_t>` or a `cluster_mailbox_t *` is an
  `Option`: `none` is the null pointer.  Dereferencing a null pointer, a
  failed `rassert`/`guarantee` and an escaping exception are results
  `Except.error`.
* `int` counters are integers reduced by `wrap32` after each increment.
* Everything a task writes to a connection or hands to a handler is
  recorded, in order, in a list of `Event`s returned by the operation.
* Tasks are cooperative. Where a task waits for other tasks it is suspended
  and an `Interference` says what the others do to the cluster meanwhile; a
  wait that is never answered ends in `Fault.blocked`.
* A write does not suspend the task, but the remote end may close the
  connection between two writes of `send_message`; the argument `closes`
  says after how many chunks of the payload it does.
-/

namespace StdMap

/-- Lookup: `m.find(k)`, `none` standing for `m.end()`. -/
def find {V : Type} : List (Int × V) → Int → Option V
  | [], _ => none
  | (k, v) :: t, i => if i = k then some v else find t i

/-- Store `v` under `k`, keeping the key order; an existing entry under `k`
is replaced. -/
def insert {V : Type} : List (Int × V) → Int → V → List (Int × V)
  | [], k, v => [(k, v)]
  | (k1, v1) :: t, k, v =>
    if k < k1 then (k, v) :: (k1, v1) :: t
    else if k = k1 then (k, v) :: t
    else (k1, v1) :: insert t k v

/-- Removal: `m.erase(k)`. -/
def erase {V : Type} : List (Int × V) → Int → List (Int × V)
  | [], _ => []
  | (k1, v1) :: t, k => if k = k1 then erase t k else (k1, v1) :: erase t k

/-- Subscript: `m[k]`. Returns the map (with a default entry inserted when
`k` was missing) and the value now stored under `k`. -/
def index {V : Type} (m : List (Int × V)) (dflt : V) (k : Int) : List (Int × V) × V :=
  match find m k with
  | some v => (m, v)
  | none => (insert m k dflt, dflt)

/-- Keys in iteration order. -/
def keys {V : Type} (m : List (Int × V)) : List Int := m.map Prod.fst

/-- Number of entries: `m.size()`. -/
def size {V : Type} (m : List (Int × V)) : Nat := m.length

/-- Well-formed maps: strictly increasing keys. -/
def WF {V : Type} (m : List (Int × V)) : Prop := (keys m).Pairwise (· < ·)

instance {V : Type} (m : List (Int × V)) : Decidable (WF m) := by
  unfold WF; infer_instance

end StdMap

/-- Largest value of a C++ `int`. -/
def INT_MAX : Int := 2147483647

/-- Smallest value of a C++ `int`. -/
def INT_MIN : Int := -2147483648

/-- Reduction of an integer to the 32-bit two's complement range. -/
def wrap32 (x : Int) : Int := (x + 2147483648) % 4294967296 - 2147483648

/-- The values an `int` can hold. -/
def InInt (x : Int) : Prop := INT_MIN ≤ x ∧ x ≤ INT_MAX

instance (x : Int) : Decidable (InInt x) := by unfold InInt; infer_instance

/-- Modelled from the spec: the enum `cluster_peer_t::state` is declared in
`rpc/core/cluster.hpp`, which is not among the sources. The constructors are
the states named in `cluster.cc`; `rank` orders them along the state machine
of the spec (`join_proposed`, `join_official`, `connected`, `kill_proposed`,
`killed`), with `us` first and `join_confirmed` before `join_official`. -/
inductive PeerState where
  | us
  | join_proposed
  | join_confirmed
  | join_official
  | connected
  | kill_proposed
  | killed
  deriving DecidableEq, Repr

/-- Position of a state in the enum. -/
def PeerState.rank : PeerState → Nat
  | .us => 0
  | .join_proposed => 1
  | .join_confirmed => 2
  | .join_official => 3
  | .connected => 4
  | .kill_proposed => 5
  | .killed => 6

/-- The message `population::addrinfo`. -/
structure addrinfo where
  ip : Nat
  port : Nat
  id : Int
  deriving DecidableEq, Repr

/-- The enum `population::LIVE` / `population::KILLED`. -/
inductive peer_state where
  | LIVE
  | KILLED
  deriving DecidableEq, Repr

/-- The message `population::peer`. -/
structure peer where
  addr : addrinfo
  state : peer_state
  deriving DecidableEq, Repr

/-- What is written to a connection: a protocol buffer or a chunk of raw
bytes. -/
inductive Wire where
  | Join_initial (addr : addrinfo)
  | Join_welcome (addr : addrinfo) (peers : List peer)
  | Join_propose (addr : addrinfo)
  | Join_mk_official (addr : addrinfo)
  | Kill_propose (addr : addrinfo)
  | Kill_mk_official (addr : addrinfo)
  | intro_msg (length : Nat)
  | mailbox_msg (id : Int) (length : Nat) (type : Option String)
  | bytes (buf : List Nat)
  deriving DecidableEq, Repr

/-- A message service attached to a peer (`cluster_peer_t::msg_srvc_ptr`). -/
inductive Srvc where
  | join_propose_srvc
  | join_mk_official_srvc
  | kill_propose_srvc
  | kill_mk_official_srvc
  | mailbox_srvc
  | join_respond_srvc (addr : addrinfo)
  | join_ack_official_srvc (addr : addrinfo)
  | kill_respond_srvc (addr : addrinfo)
  | user (n : Nat)
  deriving DecidableEq, Repr

/-- A `cluster_message_t`: the chunks its `serialize` hands to the pipe, one
per call of `write`, and the name of its dynamic type. -/
structure cluster_message_t where
  serialize : List (List Nat)
  type_name : String
  deriving DecidableEq, Repr

/-- A `tcp_conn_t`, as far as the writers of `cluster.cc` see it: whether
writing has been shut down. -/
structure tcp_conn_t where
  write_closed : Bool
  deriving DecidableEq, Repr

/-- A peer record. The class is declared in the missing header; the fields
are those `cluster.cc` reads and writes, and `proposer` keeps the third
argument of the constructor used at line 139 (`none` for the other
constructors). -/
structure cluster_peer_t where
  address : Nat
  port : Nat
  id : Int
  proposer : Option Int
  state : PeerState
  conn : Option tcp_conn_t
  srvcs : List Srvc
  deriving DecidableEq, Repr

/-- The member `mailbox_map`: the map from ids to mailboxes and the counter
`head`. A mailbox is the address of a `cluster_mailbox_t`. -/
structure mailbox_map_t where
  map : List (Int × Option Nat)
  head : Int
  deriving DecidableEq, Repr

/-- The state of a `cluster_t`. -/
structure cluster_t where
  us : Int
  peers : List (Int × Option cluster_peer_t)
  mailbox_map : mailbox_map_t
  added_srvcs : List Srvc
  peer_waiters : List Int
  deriving DecidableEq, Repr

/-- The `id` field of every `cluster_mailbox_t`, by address. -/
abbrev MailboxHeap := Nat → Int

/-- Ways an operation ends other than by returning. -/
inductive Fault where
  | rassert
  | guarantee (msg : String)
  | not_implemented
  | null_deref
  | write_closed_exc
  | blocked
  deriving DecidableEq, Repr

/-- Equality of results can be decided. -/
instance {ε α : Type} [DecidableEq ε] [DecidableEq α] : DecidableEq (Except ε α)
  | .ok a, .ok b =>
    if h : a = b then isTrue (by rw [h]) else isFalse (fun h1 => h (Except.ok.inj h1))
  | .error a, .error b =>
    if h : a = b then isTrue (by rw [h]) else isFalse (fun h1 => h (Except.error.inj h1))
  | .ok _, .error _ => isFalse (fun h => Except.noConfusion h)
  | .error _, .ok _ => isFalse (fun h => Except.noConfusion h)

/-- An observable action of the running task. -/
inductive Event where
  | peer_write (peer : Int) (w : Wire)
  | conn_write (w : Wire)
  | run (mbox : Nat) (msg : cluster_message_t)
  deriving DecidableEq, Repr

namespace cluster_t

/-- The method `cluster_t::add_mailbox` (lines 373-378). -/
def add_mailbox (c : cluster_t) (heap : MailboxHeap) (mbox : Nat) : cluster_t × MailboxHeap :=
  let map1 := StdMap.insert c.mailbox_map.map c.mailbox_map.head (some mbox)
  let heap1 := Function.update heap mbox c.mailbox_map.head
  ({ c with mailbox_map := { map := map1, head := wrap32 (c.mailbox_map.head + 1) } }, heap1)

/-- The method `cluster_t::get_mailbox` (lines 380-385); `none` is `NULL`. -/
def get_mailbox (c : cluster_t) (i : Int) : Option Nat :=
  match StdMap.find c.mailbox_map.map i with
  | none => none
  | some v => v

/-- The method `cluster_t::remove_mailbox` (lines 387-391). -/
def remove_mailbox (c : cluster_t) (heap : MailboxHeap) (mbox : Nat) : cluster_t × MailboxHeap :=
  let map1 := StdMap.erase c.mailbox_map.map (heap mbox)
  ({ c with mailbox_map := { c.mailbox_map with map := map1 } }, Function.update heap mbox (-1))

end cluster_t

/-- A call made by the constructor (`add_mailbox(this)`) or the destructor
(`remove_mailbox(this)`) of the `cluster_mailbox_t` at an address. -/
inductive MailboxCall where
  | add (mbox : Nat)
  | remove (mbox : Nat)
  deriving DecidableEq, Repr

/-- One call on a cluster and the heap of mailboxes. -/
def MailboxCall.apply (s : cluster_t × MailboxHeap) : MailboxCall → cluster_t × MailboxHeap
  | .add p => cluster_t.add_mailbox s.1 s.2 p
  | .remove p => cluster_t.remove_mailbox s.1 s.2 p

/-- A sequence of calls, in order. -/
def run_calls (s : cluster_t × MailboxHeap) (tr : List MailboxCall) : cluster_t × MailboxHeap :=
  tr.foldl MailboxCall.apply s

/-- The ids given out by the `add_mailbox` calls of a sequence, in call
order: what each call stored in `mbox->id`. -/
def handed_out : cluster_t × MailboxHeap → List MailboxCall → List Int
  | _, [] => []
  | s, .add p :: tr =>
    (cluster_t.add_mailbox s.1 s.2 p).2 p :: handed_out (cluster_t.add_mailbox s.1 s.2 p) tr
  | s, .remove p :: tr => handed_out (cluster_t.remove_mailbox s.1 s.2 p) tr

/-- Number of `add_mailbox` calls in a sequence. -/
def count_adds : List MailboxCall → Nat
  | [] => 0
  | .add _ :: tr => count_adds tr + 1
  | .remove _ :: tr => count_adds tr

/-- Every key of the mailbox map is below `head`, and `head` is an `int`. -/
def MailboxInv (c : cluster_t) : Prop :=
  (∀ k ∈ StdMap.keys c.mailbox_map.map, k < c.mailbox_map.head) ∧ InInt c.mailbox_map.head

/-- Object lifetimes: a mailbox is constructed at an address that holds no
live mailbox and only a live mailbox is destroyed. -/
def Lifetimes : List Nat → List MailboxCall → Prop
  | _, [] => True
  | live, .add p :: tr => p ∉ live ∧ Lifetimes (p :: live) tr
  | live, .remove p :: tr => p ∈ live ∧ Lifetimes (live.filter (· ≠ p)) tr

/-- The registry the specification describes: the mailbox registered under
id `i` (the call `add_mailbox` that was given `i`, ids being given in call
order from `next`) unless that mailbox has been removed since. -/
def registered : Int → List MailboxCall → Int → Option Nat
  | _, [], _ => none
  | next, .add p :: tr, i =>
    if i = next then (if MailboxCall.remove p ∈ tr then none else some p)
    else registered (next + 1) tr i
  | next, .remove _ :: tr, i => registered next tr i

/-- A cluster whose mailbox map is empty and whose counter is `h0`. -/
def fresh_mailboxes (c : cluster_t) (h0 : Int) : cluster_t :=
  { c with mailbox_map := { map := [], head := h0 } }

/-- Modelled from the spec: `cluster_peer_t::write` is declared in the
missing header. It writes one framed message to the connection of the peer
and errors propagate to the caller; `key` is the id the record is stored
under. The write lock is left out: the embedding runs one task at a time and
a write does not suspend it. -/
def cluster_peer_t.write (p : cluster_peer_t) (key : Int) (w : Wire) : Except Fault (List Event) :=
  match p.conn with
  | none => .error .null_deref
  | some conn => if conn.write_closed then .error .write_closed_exc else .ok [Event.peer_write key w]

/-- Modelled from the spec: `cluster_peer_t::add_srvc` is declared in the
missing header. Each peer holds an ordered collection of services; a new
service goes to the end. -/
def cluster_peer_t.add_srvc (p : cluster_peer_t) (s : Srvc) : cluster_peer_t :=
  { p with srvcs := p.srvcs ++ [s] }

/-- The method `cluster_peer_outpipe_t::do_write` on the connection of peer `key`: the
exception of a closed connection is swallowed. -/
def cluster_peer_outpipe_t.do_write (conn : Option tcp_conn_t) (key : Int) (buf : List Nat) :
    Except Fault (List Event) :=
  match conn with
  | none => .error .null_deref
  | some c => if c.write_closed then .ok [] else .ok [Event.peer_write key (.bytes buf)]

/-- The connection once the remote end has closed it: writing raises
`write_closed_exc_t`. -/
def tcp_conn_t.closed (conn : tcp_conn_t) : tcp_conn_t := { conn with write_closed := true }

/-- The call `msg->serialize(&pipe)` on a `cluster_peer_outpipe_t`: one
`do_write` per chunk, each a `conn->write` of its own. `closes` says what the
remote end does meanwhile: `some n` closes the connection once `n` more
chunks have been written, `none` leaves it as it is. The base class
`checking_outpipe_t` (header missing) is given the number of bytes to expect
and counts what is handed to it, before `do_write`; the chunks being those
the counting pipe saw, the numbers agree. -/
def serialize_to_peer (key : Int) :
    Option tcp_conn_t → Option Nat → List (List Nat) → Except Fault (List Event)
  | _, _, [] => .ok []
  | conn, closes, buf :: rest =>
    let now : Option tcp_conn_t := if closes = some 0 then conn.map tcp_conn_t.closed else conn
    match cluster_peer_outpipe_t.do_write now key buf with
    | .error e => .error e
    | .ok ev =>
      match serialize_to_peer key now (closes.map Nat.pred) rest with
      | .error e => .error e
      | .ok evs => .ok (ev ++ evs)

/-- Whether the remote end closes the connection before the last chunk of a
payload is written. -/
def closed_during (closes : Option Nat) (chunks : List (List Nat)) : Bool :=
  match closes with
  | none => false
  | some n => decide (n < chunks.length)

/-- The chunks of a payload that are written before the remote end closes
the connection. -/
def chunks_written (closes : Option Nat) (chunks : List (List Nat)) : List (List Nat) :=
  match closes with
  | none => chunks
  | some n => chunks.take n

/-- The pipe `counting_outpipe_t`: the field `bytes` after `serialize` has run on
it. -/
def counting_outpipe_t.bytes (chunks : List (List Nat)) : Nat := (chunks.map List.length).sum

namespace cluster_t

/-- The expression `peers[i]->`: subscript, then dereference of the shared pointer. A
missing key yields a null pointer; when the result is a record the map is
unchanged. -/
def peer_at (c : cluster_t) (i : Int) : Except Fault cluster_peer_t :=
  match (StdMap.index c.peers none i).2 with
  | none => .error .null_deref
  | some p => .ok p

/-- Assignment through `peers[i]->`: the record under `i` becomes `p`. -/
def set_peer (c : cluster_t) (i : Int) (p : cluster_peer_t) : cluster_t :=
  { c with peers := StdMap.insert c.peers i (some p) }

/-- The method `cluster_t::send_message` (lines 320-355). `debug` tells
whether `rassert` is compiled in (`NDEBUG` undefined). `closes` says when the
remote end closes the connection while the payload is written (see
`serialize_to_peer`); the header is one write, which raises on a connection
already closed, and each chunk is a write whose exception `do_write`
swallows. A connection closed during the call is closed in the record
afterwards. The write lock of line 336 is free when the task gets here: a
write does not suspend the task, so no other task is inside this branch. -/
def send_message (debug : Bool) (closes : Option Nat) (c : cluster_t) (peer mailbox : Int)
    (msg : cluster_message_t) : Except Fault (cluster_t × List Event) :=
  if debug = true ∧ StdMap.find c.peers peer = none then .error .rassert else
  match (StdMap.index c.peers none peer).2 with
  | none => .error .null_deref
  | some p =>
    if p.state = PeerState.us then
      if debug = true ∧ peer ≠ c.us then .error .rassert else
      if debug = true ∧ StdMap.find c.mailbox_map.map mailbox = none then .error .rassert else
      match (StdMap.index c.mailbox_map.map none mailbox).2 with
      | none => .error .null_deref
      | some mbox => .ok (c, [Event.run mbox msg])
    else
      let length := counting_outpipe_t.bytes msg.serialize
      let mbox_msg := Wire.mailbox_msg mailbox length (if debug then some msg.type_name else none)
      match p.write peer mbox_msg with
      | .error e => .error e
      | .ok ev1 =>
        match serialize_to_peer peer p.conn closes msg.serialize with
        | .error e => .error e
        | .ok ev2 =>
          if closed_during closes msg.serialize then
            .ok (set_peer c peer { p with conn := p.conn.map tcp_conn_t.closed }, ev1 ++ ev2)
          else .ok (c, ev1 ++ ev2)

end cluster_t

/-- What the other tasks do to the cluster while the running task is
suspended: `env t` is their effect during its `t`-th suspension. -/
abbrev Interference := Nat → cluster_t → cluster_t

/-- A running task: the cluster as it stands, the number of suspensions so
far and what the task has written. A write is taken to complete without
suspending the task; the task is suspended where it waits for other tasks. -/
structure Coro where
  c : cluster_t
  t : Nat
  log : List Event
  deriving DecidableEq

/-- The task yields and the other tasks run. -/
def Coro.suspend (env : Interference) (s : Coro) : Coro :=
  { s with c := env s.t s.c, t := s.t + 1 }

/-- The ids `0 .. n-1` of a loop `for (int i = 0; i < n; i++)`. -/
def loop_ids (n : Int) : List Int := (List.range n.toNat).map Int.ofNat

/-- A loop body run over a list of ids, stopping at the first fault. -/
def for_each (f : Coro → Int → Except Fault Coro) : List Int → Coro → Except Fault Coro
  | [], s => .ok s
  | i :: rest, s =>
    match f s i with
    | .error e => .error e
    | .ok s1 => for_each f rest s1

/-- Modelled from the spec: `write_protob` is declared in the missing
`protob.hpp`. It writes one framed message to a connection; a connection
closed for writing raises. -/
def write_protob (conn : tcp_conn_t) (w : Wire) : Except Fault (List Event) :=
  if conn.write_closed then .error .write_closed_exc else .ok [Event.conn_write w]

/-- The method `cluster_peer_outpipe_t::do_write` on the joining connection. -/
def intro_do_write (conn : tcp_conn_t) (buf : List Nat) : List Event :=
  if conn.write_closed then [] else [Event.conn_write (.bytes buf)]

/-- What `handle_unknown_peer` hands back to the proofs: the task at the
end, the address sent in the welcome and the writes of each proposal round. -/
structure Admission where
  task : Coro
  addr : addrinfo
  rounds : List (List Event)
  deriving DecidableEq

namespace cluster_t

/-- The method `cluster_t::wait_on_peer_join` (lines 357-364). The waiter is woken by
`pulse_peer_join`, which erases the entry of `peer_waiters`; a task that is
never woken is `blocked`. -/
def wait_on_peer_join (env : Interference) (s : Coro) (peer_id : Int) : Except Fault Coro :=
  match peer_at s.c peer_id with
  | .error e => .error e
  | .ok p =>
    if p.state = PeerState.connected ∨ p.state = PeerState.us then .ok s
    else
      let waiters := if peer_id ∈ s.c.peer_waiters then s.c.peer_waiters
        else peer_id :: s.c.peer_waiters
      let s1 := Coro.suspend env { s with c := { s.c with peer_waiters := waiters } }
      if peer_id ∈ s1.c.peer_waiters then .error .blocked else .ok s1

/-- Lines 123-141 of `handle_unknown_peer`: the candidate address and the
record proposed "to ourselves". The constructor is given the ip, the port,
`us` and the id; the record has no connection and no service yet. -/
def propose_to_ourselves (c : cluster_t) (initial : addrinfo) : cluster_t × addrinfo :=
  let addr : addrinfo := { initial with id := wrap32 (StdMap.size c.peers) }
  let p : cluster_peer_t :=
    { address := addr.ip, port := addr.port, id := addr.id, proposer := some c.us,
      state := PeerState.join_proposed, conn := none, srvcs := [] }
  ({ c with peers := StdMap.insert c.peers addr.id (some p) }, addr)

/-- Body of the loop of lines 147-153 for one `i`. -/
def propose_to (env : Interference) (respond_srvc : Srvc) (propose : addrinfo) (s : Coro) (i : Int) :
    Except Fault Coro :=
  if i = s.c.us then .ok s else
  match peer_at s.c i with
  | .error e => .error e
  | .ok p =>
    if p.state.rank > PeerState.connected.rank then .ok s else
    match wait_on_peer_join env s i with
    | .error e => .error e
    | .ok s1 =>
      match peer_at s1.c i with
      | .error e => .error e
      | .ok p1 =>
        match (p1.add_srvc respond_srvc).write i (.Join_propose propose) with
        | .error e => .error e
        | .ok ev => .ok { s1 with c := set_peer s1.c i (p1.add_srvc respond_srvc), log := s1.log ++ ev }

/-- The loop `for (;;)` of lines 143-168. `responses` holds what
`respond_srvc->wait()` returns round after round; with no response left the
task stays `blocked`. The writes of each round are collected in `rounds`. -/
def propose_loop (env : Interference) :
    List Bool → Coro → addrinfo → List (List Event) → Except Fault (Coro × addrinfo × List (List Event))
  | [], _, _, _ => .error .blocked
  | r :: rest, s, addr, rounds =>
    match for_each (propose_to env (.join_respond_srvc addr) addr) (loop_ids addr.id)
        { s with log := [] } with
    | .error e => .error e
    | .ok s1 =>
      let s2 := Coro.suspend env { s1 with log := s.log ++ s1.log }
      if r then .ok (s2, addr, rounds ++ [s1.log])
      else propose_loop env rest s2 { addr with id := wrap32 (addr.id + 1) } (rounds ++ [s1.log])

/-- Body of the loop of lines 179-184 for the entry under `k`. -/
def mk_official_to (ack_official_srvc : Srvc) (addr : addrinfo) (s : Coro) (k : Int) :
    Except Fault Coro :=
  if k < addr.id then
    match peer_at s.c k with
    | .error e => .error e
    | .ok p =>
      if p.state = PeerState.join_confirmed ∨ p.state = PeerState.connected then
        match (p.add_srvc ack_official_srvc).write k (.Join_mk_official addr) with
        | .error e => .error e
        | .ok ev => .ok { s with c := set_peer s.c k (p.add_srvc ack_official_srvc), log := s.log ++ ev }
      else .ok s
  else .ok s

/-- Lines 170-186: the record of the assigned id becomes `join_official`,
`Join_mk_official` goes to the earlier peers, and the task waits for the
acknowledgements. -/
def make_official (env : Interference) (s : Coro) (addr : addrinfo) : Except Fault Coro :=
  match peer_at s.c addr.id with
  | .error e => .error e
  | .ok p =>
    let s1 : Coro := { s with c := set_peer s.c addr.id { p with state := PeerState.join_official } }
    match for_each (mk_official_to (.join_ack_official_srvc addr) addr) (StdMap.keys s1.c.peers) s1 with
    | .error e => .error e
    | .ok s2 => .ok (Coro.suspend env s2)

/-- Body of the loop of lines 191-206 for one `i`: the entry of the welcome
for peer `i`. -/
def welcome_entry (env : Interference) (s : Coro) (i : Int) : Except Fault (Coro × peer) :=
  match (if StdMap.find s.c.peers i = none then wait_on_peer_join env s i else .ok s) with
  | .error e => .error e
  | .ok s1 =>
    match peer_at s1.c i with
    | .error e => .error e
    | .ok p =>
      .ok (s1, { addr := { ip := p.address, port := p.port, id := i },
                 state := if p.state = PeerState.killed then peer_state.KILLED else peer_state.LIVE })

/-- The loop of lines 191-206: the peers of the welcome, in order. -/
def welcome_peers (env : Interference) : List Int → Coro → Except Fault (Coro × List peer)
  | [], s => .ok (s, [])
  | i :: rest, s =>
    match welcome_entry env s i with
    | .error e => .error e
    | .ok (s1, e) =>
      match welcome_peers env rest s1 with
      | .error e1 => .error e1
      | .ok (s2, es) => .ok (s2, e :: es)

/-- Lines 188-222: the welcome and the introduction are written to the
joining connection. `intro` holds the chunks `introduce_new_node` writes. -/
def welcome_phase (env : Interference) (conn : tcp_conn_t) (intro : List (List Nat)) (s : Coro)
    (addr : addrinfo) : Except Fault Coro :=
  match welcome_peers env (loop_ids addr.id) s with
  | .error e => .error e
  | .ok (s1, ps) =>
    match write_protob conn (.Join_welcome addr ps) with
    | .error e => .error e
    | .ok ev1 =>
      match write_protob conn (.intro_msg (counting_outpipe_t.bytes intro)) with
      | .error e => .error e
      | .ok ev2 =>
        .ok { s1 with log := s1.log ++ ev1 ++ ev2 ++ (intro.map (intro_do_write conn)).flatten }

/-- The method `cluster_t::handle_unknown_peer` (lines 123-222). -/
def handle_unknown_peer (env : Interference) (responses : List Bool) (conn : tcp_conn_t)
    (intro : List (List Nat)) (c : cluster_t) (initial : addrinfo) : Except Fault Admission :=
  let start := propose_to_ourselves c initial
  match propose_loop env responses { c := start.1, t := 0, log := [] } start.2 [] with
  | .error e => .error e
  | .ok (s1, addr, rounds) =>
    match make_official env s1 addr with
    | .error e => .error e
    | .ok s2 =>
      match welcome_phase env conn intro s2 addr with
      | .error e => .error e
      | .ok s3 => .ok { task := s3, addr := addr, rounds := rounds }

end cluster_t

/-- What links the mailbox map to the live mailboxes: a live mailbox is
stored under its own id and every entry holds a live mailbox. -/
def Registry (live : List Nat) (c : cluster_t) (heap : MailboxHeap) : Prop :=
  (∀ p ∈ live, StdMap.find c.mailbox_map.map (heap p) = some (some p)) ∧
  (∀ k v, StdMap.find c.mailbox_map.map k = some v → ∃ p ∈ live, v = some p ∧ heap p = k)

/-- The founder built by `cluster_t::cluster_t(int port, cluster_delegate_t *)`:
the local node alone, under id 0. The local record is in state `us`; the
mailbox map starts empty with `head` at 0. -/
def founder (ip port : Nat) : cluster_t :=
  { us := 0,
    peers := [(0, some { address := ip, port := port, id := 0, proposer := none,
                         state := PeerState.us, conn := none, srvcs := [] })],
    mailbox_map := { map := [], head := 0 },
    added_srvcs := [],
    peer_waiters := [] }

/-- A heap in which no mailbox has been given an id. -/
def no_ids : MailboxHeap := fun _ => -1

/-- A founder with one mailbox, at address 5, registered under id 0. -/
def founder_with_mailbox : cluster_t := (cluster_t.add_mailbox (founder 1 2) no_ids 5).1

/-- A connection open for writing. -/
def open_conn : tcp_conn_t := { write_closed := false }

/-- A remote peer record with an open connection. -/
def remote_peer (id : Int) (state : PeerState) : cluster_peer_t :=
  { address := 10, port := 20, id := id, proposer := none, state := state,
    conn := some open_conn, srvcs := [] }

/-- A founder that knows one remote peer, under id 1, in a given state. -/
def two_nodes (state : PeerState) : cluster_t :=
  { founder 1 2 with peers := (founder 1 2).peers ++ [(1, some (remote_peer 1 state))] }

/-- A message of three bytes serialized in two chunks. -/
def hi_msg : cluster_message_t := { serialize := [[104], [105, 0]], type_name := "hi" }

/-- A node that knows the peers 0 (itself) and 2 but no peer 1. -/
def gap_cluster : cluster_t :=
  { founder 1 2 with
    peers := (founder 1 2).peers ++ [(2, some (remote_peer 2 PeerState.connected))] }

/-- The welcomes found in a log, in order. -/
def welcomes_sent : List Event → List (addrinfo × List peer)
  | [] => []
  | Event.conn_write (Wire.Join_welcome addr ps) :: rest => (addr, ps) :: welcomes_sent rest
  | _ :: rest => welcomes_sent rest

/-- No other task changes the cluster. -/
def idle : Interference := fun _ c => c

/-- The other tasks never take the record of id `n` out of the membership
map. -/
def Keeps (env : Interference) (n : Int) : Prop :=
  ∀ t c, n ∈ StdMap.keys c.peers → n ∈ StdMap.keys (env t c).peers

/-- Scenario S6 seen from a node with the ids 0 and 1: while the task waits
for peer 2 to join (its second suspension), the joiner that the other node
admitted under id 2 connects; its record replaces the placeholder, in state
`connected`, and the waiters of id 2 are woken. -/
def other_joiner_connects : Interference := fun t c =>
  if t = 1 then
    { cluster_t.set_peer c 2 (remote_peer 2 PeerState.connected) with
      peer_waiters := c.peer_waiters.filter (· ≠ 2) }
  else c

/-- The address an unknown joiner sends in `Join_initial`. -/
def joiner_addr : addrinfo := { ip := 7, port := 8, id := -1 }

/-- The admission of `joiner_addr` by a founder with one connected peer, when
no other task interferes and the first proposal is accepted; the last
component is a placeholder never reached. -/
def plain_admission : Admission :=
  match cluster_t.handle_unknown_peer idle [true] open_conn [[1, 2], [3]]
      (two_nodes PeerState.connected) joiner_addr with
  | .ok a => a
  | .error _ => { task := { c := founder 1 2, t := 0, log := [] }, addr := joiner_addr, rounds := [] }

/-- Where the proposal loop leaves a node with the ids 0 and 1 in scenario
S6, after one rejection and one acceptance; the last component is a
placeholder never reached. -/
def after_retry : Coro × addrinfo × List (List Event) :=
  match cluster_t.propose_loop other_joiner_connects [false, true]
      { c := (cluster_t.propose_to_ourselves (two_nodes PeerState.connected) joiner_addr).1,
        t := 0, log := [] }
      (cluster_t.propose_to_ourselves (two_nodes PeerState.connected) joiner_addr).2 [] with
  | .ok res => res
  | .error _ => ({ c := founder 1 2, t := 0, log := [] }, joiner_addr, [])

/-- A cluster together with what the running task has written and the ids
of the peers for which `start_main_srvcs` has spawned `_start_main_srvcs`. -/
structure Spawning where
  c : cluster_t
  log : List Event
  spawned : List Int
  deriving DecidableEq

/-- Modelled from the spec: `cluster_peer_t::set_state` is declared in the
missing header; it is taken to store the new state in the record. -/
def cluster_peer_t.set_state (p : cluster_peer_t) (st : PeerState) : cluster_peer_t :=
  { p with state := st }

/-- Modelled from the spec: `cluster_peer_t::fill_in_addr` is declared in the
missing header; it is taken to fill in the ip, the port and the id of the
record. -/
def cluster_peer_t.fill_in_addr (p : cluster_peer_t) : addrinfo :=
  { ip := p.address, port := p.port, id := p.id }

/-- The state of the record stored under an id, if there is one. -/
def state_at (c : cluster_t) (k : Int) : Option PeerState :=
  match StdMap.find c.peers k with
  | some (some p) => some p.state
  | _ => none

/-- The services of the record stored under an id, if there is one. -/
def srvcs_at (c : cluster_t) (k : Int) : Option (List Srvc) :=
  match StdMap.find c.peers k with
  | some (some p) => some p.srvcs
  | _ => none

/-- The five services `_start_main_srvcs` attaches first, in order. -/
def main_srvcs : List Srvc :=
  [Srvc.join_propose_srvc, Srvc.join_mk_official_srvc, Srvc.kill_propose_srvc,
   Srvc.kill_mk_official_srvc, Srvc.mailbox_srvc]

namespace cluster_t

/-- Modelled from the spec: `coro_t::spawn` is declared in the missing `arch`
headers. Tasks are cooperative and interleave at suspension points only, so
the task spawned by `cluster_t::start_main_srvcs` (lines 239-242) is taken to
start when the running task next yields, not inside the call (line 329 uses
`spawn_now` where the new task must run at once). The peer is recorded as
having `_start_main_srvcs` pending. -/
def start_main_srvcs (r : Spawning) (key : Int) : Spawning :=
  { r with spawned := r.spawned ++ [key] }

/-- The method `cluster_t::pulse_peer_join` (lines 366-371). -/
def pulse_peer_join (c : cluster_t) (peer_id : Int) : cluster_t :=
  { c with peer_waiters := c.peer_waiters.filter (· ≠ peer_id) }

/-- The condition of the `if` at line 226 of `handle_known_peer`: the id is
known and its record is not in state `join_official`. -/
def not_official (c : cluster_t) (id : Int) : Except Fault Bool :=
  if StdMap.find c.peers id = none then .ok false
  else
    match peer_at c id with
    | .error e => .error e
    | .ok p => .ok (decide (p.state ≠ PeerState.join_official))

/-- Lines 230-235 of `handle_known_peer`: the record becomes `connected`,
takes over the connection, the `Join_initial` is echoed and the waiters for
the peer are woken. -/
def known_peer_connect (c : cluster_t) (conn : tcp_conn_t) (initial : addrinfo) :
    Except Fault Spawning :=
  match peer_at c initial.id with
  | .error e => .error e
  | .ok p =>
    let p1 : cluster_peer_t := { p with state := PeerState.connected, conn := some conn }
    match p1.write initial.id (.Join_initial initial) with
    | .error e => .error e
    | .ok ev =>
      .ok { c := pulse_peer_join (set_peer c initial.id p1) initial.id, log := ev, spawned := [] }

/-- The method `cluster_t::handle_known_peer` (lines 224-238). A rejected
connection returns the cluster as it is, with no write. -/
def handle_known_peer (c : cluster_t) (conn : tcp_conn_t) (initial : addrinfo) :
    Except Fault Spawning :=
  match not_official c initial.id with
  | .error e => .error e
  | .ok true => .ok { c := c, log := [], spawned := [] }
  | .ok false =>
    match known_peer_connect c conn initial with
    | .error e => .error e
    | .ok r => .ok (start_main_srvcs r initial.id)

/-- Body of the loop of lines 290-295 of `kill_peer` for the entry under
`k`. -/
def kill_propose_to (respond_srvc : Srvc) (propose : addrinfo) (s : Coro) (k : Int) :
    Except Fault Coro :=
  match peer_at s.c k with
  | .error e => .error e
  | .ok p =>
    if p.state = PeerState.connected then
      match (p.add_srvc respond_srvc).write k (.Kill_propose propose) with
      | .error e => .error e
      | .ok ev => .ok { s with c := set_peer s.c k (p.add_srvc respond_srvc), log := s.log ++ ev }
    else .ok s

/-- Body of the loop of lines 301-305 of `kill_peer` for the entry under
`k`. -/
def kill_mk_official_to (mk_official : addrinfo) (s : Coro) (k : Int) : Except Fault Coro :=
  match peer_at s.c k with
  | .error e => .error e
  | .ok p =>
    if p.state = PeerState.connected then
      match p.write k (.Kill_mk_official mk_official) with
      | .error e => .error e
      | .ok ev => .ok { s with log := s.log ++ ev }
    else .ok s

/-- Lines 281-295 of `kill_peer`: the record becomes `kill_proposed` and the
proposal goes to every connected peer. -/
def kill_propose_phase (s : Coro) (id : Int) (p : cluster_peer_t) : Except Fault Coro :=
  let s1 : Coro := { s with c := set_peer s.c id { p with state := PeerState.kill_proposed } }
  for_each (kill_propose_to (.kill_respond_srvc p.fill_in_addr) p.fill_in_addr)
    (StdMap.keys s1.c.peers) s1

/-- Lines 299-305 of `kill_peer`: the record becomes `killed` and
`Kill_mk_official` goes to every connected peer. -/
def kill_official_phase (s : Coro) (id : Int) (addr : addrinfo) : Except Fault Coro :=
  match peer_at s.c id with
  | .error e => .error e
  | .ok p =>
    let s1 : Coro := { s with c := set_peer s.c id (p.set_state PeerState.killed) }
    for_each (kill_mk_official_to addr) (StdMap.keys s1.c.peers) s1

/-- The method `cluster_t::kill_peer` (lines 272-310). `response` is what
`respond_srvc->wait()` returns, `none` if it never returns. -/
def kill_peer (env : Interference) (response : Option Bool) (s : Coro) (id : Int) :
    Except Fault Coro :=
  if StdMap.find s.c.peers id = none then .error (.guarantee "") else
  match peer_at s.c id with
  | .error e => .error e
  | .ok p =>
    if p.state ≠ PeerState.connected then .ok s else
    match kill_propose_phase s id p with
    | .error e => .error e
    | .ok s1 =>
      match response with
      | none => .error .blocked
      | some true => kill_official_phase (Coro.suspend env s1) id p.fill_in_addr
      | some false => .error .not_implemented

/-- The loop of `cluster_t::add_srvc` (lines 394-396) over the entries of the
membership map. -/
def add_srvc_all (srvc : Srvc) :
    List (Int × Option cluster_peer_t) → Except Fault (List (Int × Option cluster_peer_t))
  | [] => .ok []
  | (_, none) :: _ => .error .null_deref
  | (k, some p) :: rest =>
    match add_srvc_all srvc rest with
    | .error e => .error e
    | .ok rest1 => .ok ((k, some (p.add_srvc srvc)) :: rest1)

/-- The method `cluster_t::add_srvc` (lines 393-398). -/
def add_srvc (c : cluster_t) (srvc : Srvc) : Except Fault cluster_t :=
  match add_srvc_all srvc c.peers with
  | .error e => .error e
  | .ok peers1 => .ok { c with peers := peers1, added_srvcs := c.added_srvcs ++ [srvc] }

/-- Lines 246-262 of `_start_main_srvcs`: the five main services and then
the user services added so far are attached to the peer. The shared pointer
the task holds is the record stored under `key`. -/
def attach_srvcs (c : cluster_t) (key : Int) : Except Fault cluster_t :=
  match peer_at c key with
  | .error e => .error e
  | .ok p =>
    .ok (set_peer c key
      (c.added_srvcs.foldl cluster_peer_t.add_srvc (main_srvcs.foldl cluster_peer_t.add_srvc p)))

/-- The method `cluster_t::_start_main_srvcs` (lines 244-270). Servicing runs
while the task is suspended; `closes` tells whether the connection ever
closes, which ends `start_servicing` with an exception that is caught. -/
def _start_main_srvcs (env : Interference) (closes : Bool) (response : Option Bool) (s : Coro)
    (key : Int) : Except Fault Coro :=
  match peer_at s.c key with
  | .error e => .error e
  | .ok p =>
    match attach_srvcs s.c key with
    | .error e => .error e
    | .ok c1 =>
      if closes then kill_peer env response (Coro.suspend env { s with c := c1 }) p.id
      else .error .blocked

/-- Body of the loop of lines 86-102 of the joining constructor for one
entry of the welcome. `connect` is what opening a connection to the peer
gives and `read_ok` whether the echo of `Join_initial` arrives. The state the
constructor of the record gives it is overwritten before it is read, so the
record is built with the state assigned at line 96 or 99. -/
def join_peer (connect : Int → Except Fault tcp_conn_t) (read_ok : Int → Bool)
    (initial : addrinfo) (r : Spawning) (e : peer) : Except Fault Spawning :=
  if StdMap.find r.c.peers e.addr.id ≠ none then .error (.guarantee "Duplicate entry found")
  else
    match e.state with
    | peer_state.LIVE =>
      match connect e.addr.id with
      | .error f => .error f
      | .ok conn =>
        let p : cluster_peer_t :=
          { address := e.addr.ip, port := e.addr.port, id := e.addr.id, proposer := none,
            state := PeerState.connected, conn := some conn, srvcs := [] }
        match p.write e.addr.id (.Join_initial initial) with
        | .error f => .error f
        | .ok ev =>
          if read_ok e.addr.id then
            .ok (start_main_srvcs
              { r with c := set_peer r.c e.addr.id p, log := r.log ++ ev } e.addr.id)
          else .error (.guarantee "Failed to connect to a cluster peer exitting\n")
    | peer_state.KILLED =>
      let p : cluster_peer_t :=
        { address := e.addr.ip, port := e.addr.port, id := e.addr.id, proposer := none,
          state := PeerState.killed, conn := none, srvcs := [] }
      .ok { r with c := set_peer r.c e.addr.id p }

/-- The loop of lines 86-102 over the peers of the welcome. -/
def join_peers (connect : Int → Except Fault tcp_conn_t) (read_ok : Int → Bool)
    (initial : addrinfo) : List peer → Spawning → Except Fault Spawning
  | [], r => .ok r
  | e :: rest, r =>
    match join_peer connect read_ok initial r e with
    | .error f => .error f
    | .ok r1 => join_peers connect read_ok initial rest r1

/-- The joining constructor `cluster_t::cluster_t(port, contact_host,
contact_port, startup_function)`, lines 54-102: the join request, the welcome
read from the contact (`welcome_addr`, `welcome_peers`) and the loop over its
peers. The members start empty, `head` at 0. Lines 104-109 hand the
introduction that follows to the startup function. -/
def joiner (ip port : Nat) (contact_conn : tcp_conn_t) (welcome_addr : addrinfo)
    (welcome_peers : List peer) (connect : Int → Except Fault tcp_conn_t)
    (read_ok : Int → Bool) : Except Fault Spawning :=
  match write_protob contact_conn (.Join_initial { ip := ip, port := port, id := -1 }) with
  | .error f => .error f
  | .ok ev =>
    let ours : cluster_peer_t :=
      { address := ip, port := port, id := welcome_addr.id, proposer := none,
        state := PeerState.us, conn := none, srvcs := [] }
    let c0 : cluster_t :=
      { us := welcome_addr.id,
        peers := StdMap.insert [] welcome_addr.id (some ours),
        mailbox_map := { map := [], head := 0 },
        added_srvcs := [],
        peer_waiters := [] }
    join_peers connect read_ok welcome_addr welcome_peers { c := c0, log := ev, spawned := [] }

/-- What `on_tcp_listener_accept` did with a connection. -/
inductive Accepted where
  | unknown (r : Except Fault Admission)
  | known (r : Except Fault Spawning)
  deriving DecidableEq

/-- The method `cluster_t::on_tcp_listener_accept` (lines 112-121); `initial`
is the address of the first packet. -/
def on_tcp_listener_accept (env : Interference) (responses : List Bool) (conn : tcp_conn_t)
    (intro : List (List Nat)) (c : cluster_t) (initial : addrinfo) : Accepted :=
  if initial.id = -1 then .unknown (handle_unknown_peer env responses conn intro c initial)
  else .known (handle_known_peer c conn initial)

end cluster_t

/-- The ids listed in a welcome, in order. -/
def listed_ids (ps : List peer) : List Int := ps.map (fun e => e.addr.id)

/-- A welcome the joining constructor accepts: no id is listed twice and the
assigned id is not listed. -/
def Distinct (k : Int) (ps : List peer) : Prop := (listed_ids ps).Nodup ∧ k ∉ listed_ids ps

/-- Every connection the constructor opens is open for writing and every
echo arrives. -/
def GoodIO (ps : List peer) (connect : Int → Except Fault tcp_conn_t) (read_ok : Int → Bool) :
    Prop :=
  ∀ e ∈ ps, e.state = peer_state.LIVE →
    connect e.addr.id = .ok { write_closed := false } ∧ read_ok e.addr.id = true

/-- A welcome for id 2 listing peer 0 as live and peer 1 as killed. -/
def welcome_two : List peer :=
  [{ addr := { ip := 1, port := 2, id := 0 }, state := peer_state.LIVE },
   { addr := { ip := 10, port := 20, id := 1 }, state := peer_state.KILLED }]

/-- A welcome for id 2 that lists peer 0 twice. -/
def welcome_twice : List peer :=
  [{ addr := { ip := 1, port := 2, id := 0 }, state := peer_state.LIVE },
   { addr := { ip := 1, port := 2, id := 0 }, state := peer_state.KILLED }]

/-- Connections that always open. -/
def connect_ok : Int → Except Fault tcp_conn_t := fun _ => .ok { write_closed := false }

/-- Echoes that always arrive. -/
def echo_ok : Int → Bool := fun _ => true

/-- The ids of the records in state `connected`, in the order of the map. -/
def connected_ids (c : cluster_t) : List Int :=
  (StdMap.keys c.peers).filter (fun k => decide (state_at c k = some PeerState.connected))

/-- A founder that knows two remote peers, 1 and 2, both connected. -/
def three_nodes : cluster_t :=
  { founder 1 2 with
    peers := (founder 1 2).peers ++
      [(1, some (remote_peer 1 PeerState.connected)), (2, some (remote_peer 2 PeerState.connected))] }

/-- The task state after `kill_peer 1` on `three_nodes` with a positive
response and no interference; the last component is a placeholder never
reached. -/
def after_kill : Coro :=
  match cluster_t.kill_peer idle (some true) { c := three_nodes, t := 0, log := [] } 1 with
  | .ok s => s
  | .error _ => { c := three_nodes, t := 0, log := [] }

/-- The cluster the joining constructor builds from `welcome_two`; the last
component is a placeholder never reached. -/
def joined : Spawning :=
  match cluster_t.joiner 7 8 open_conn { ip := 7, port := 8, id := 2 } welcome_two connect_ok
      echo_ok with
  | .ok r => r
  | .error _ => { c := founder 7 8, log := [], spawned := [] }

/-- The class `monitoring_controller_t` of
`unittest/clustering_registration.cc` (lines 12-32). -/
structure monitoring_controller_t where
  has_registrant : Bool
  registrant_data : String
  deriving DecidableEq, Repr

/-- Modelled from the spec: `registrar_t`, `registrant_t` and the directory
are declared in headers that are not among the sources. The world of scenario
S5: the controller of the test, the outcome of each `EXPECT` so far, whether
the business card of the registrar is published in the directory, whether the
registrar exists, whether it holds a `monitoring_controller_t::registrant_t`
for the registrant, the registration request still on its way, whether the
registrant exists and whether its failed signal is pulsed. -/
structure RegistrationWorld where
  controller : monitoring_controller_t
  checks : List Bool
  published : Bool
  registrar_alive : Bool
  holds_registrant : Bool
  request : Option String
  subscribed : Bool
  failed : Bool
  deriving DecidableEq, Repr

namespace monitoring_controller_t

/-- The constructor of `monitoring_controller_t::registrant_t` (lines
17-21), with the outcome of its `EXPECT_FALSE`. -/
def registrant_ctor (w : RegistrationWorld) (data : String) : RegistrationWorld :=
  { w with checks := w.checks ++ [!w.controller.has_registrant],
           controller := { has_registrant := true, registrant_data := data } }

/-- The destructor of `monitoring_controller_t::registrant_t` (lines 22-25),
with the outcome of its `EXPECT_TRUE`. -/
def registrant_dtor (w : RegistrationWorld) : RegistrationWorld :=
  { w with checks := w.checks ++ [w.controller.has_registrant],
           controller := { w.controller with has_registrant := false } }

end monitoring_controller_t

/-- The outcome of an `EXPECT` is appended to the checks. -/
def EXPECT (w : RegistrationWorld) (b : Bool) : RegistrationWorld := { w with checks := w.checks ++ [b] }

/-- Modelled from the spec: the start of the test (lines 84-101), a
registrar published in the directory and a controller without registrant. -/
def registrar_published : RegistrationWorld :=
  { controller := { has_registrant := false, registrant_data := "" },
    checks := [], published := true, registrar_alive := true, holds_registrant := false,
    request := none, subscribed := false, failed := false }

/-- Modelled from the spec: the constructor of `registrant_t` subscribes to a
published registrar by sending it the data; with no registrar published the
registrant fails. -/
def subscribe (w : RegistrationWorld) (data : String) : RegistrationWorld :=
  if w.published then { w with subscribed := true, request := some data }
  else { w with subscribed := true, failed := true }

/-- Modelled from the spec: the registrar is unpublished (lines 114-119, the
value of the directory is set to nothing). -/
def unpublish (w : RegistrationWorld) : RegistrationWorld := { w with published := false }

/-- Modelled from the spec: the registrar is dropped (`registrar.reset()`,
line 120); the registrant objects it holds are destroyed with it. -/
def registrar_reset (w : RegistrationWorld) : RegistrationWorld :=
  let w1 := if w.holds_registrant then monitoring_controller_t.registrant_dtor w else w
  { w1 with registrar_alive := false, holds_registrant := false }

/-- Modelled from the spec: `let_stuff_happen` (lines 35-37) lets the other
tasks run. A request on its way reaches the registrar, which, if it exists,
constructs the registrant of the controller; a registrant whose registrar is
no longer published has its failed signal pulsed. -/
def let_stuff_happen (w : RegistrationWorld) : RegistrationWorld :=
  let w1 : RegistrationWorld :=
    match w.request with
    | some data =>
      if w.registrar_alive then
        { monitoring_controller_t.registrant_ctor w data with holds_registrant := true,
                                                              request := none }
      else { w with request := none }
    | none => w
  if w1.subscribed && !w1.published then { w1 with failed := true } else w1

/-- The function `run_registrar_death_test` (lines 82-126): the steps of the
test with its `EXPECT`s. -/
def run_registrar_death_test : RegistrationWorld :=
  let w1 := EXPECT registrar_published (!registrar_published.controller.has_registrant)
  let w2 := let_stuff_happen (subscribe w1 "hello")
  let w3 := EXPECT w2 (!w2.failed)
  let w4 := EXPECT w3 w3.controller.has_registrant
  let w5 := EXPECT w4 (decide (w4.controller.registrant_data = "hello"))
  let w6 := let_stuff_happen (registrar_reset (unpublish w5))
  let w7 := EXPECT w6 w6.failed
  EXPECT w7 (!w7.controller.has_registrant)

/-- The test up to line 111: the registrant is registered. -/
def registered_hello : RegistrationWorld := let_stuff_happen (subscribe registrar_published "hello")

/-- Every entry of the membership map holds a record and every connected
record has a connection open for writing. -/
def Writable (c : cluster_t) : Prop :=
  ∀ k ∈ StdMap.keys c.peers, ∃ q, StdMap.find c.peers k = some (some q) ∧
    (q.state = PeerState.connected → q.conn = some { write_closed := false })


/-! ## Lemmas on maps -/

namespace StdMap

theorem find_insert_self {V : Type} (m : List (Int × V)) (k : Int) (v : V) :
    find (insert m k v) k = some v := by
  induction m with
  | nil => simp [insert, find]
  | cons h t ih =>
    obtain ⟨k1, v1⟩ := h
    by_cases h1 : k < k1
    · simp [insert, h1, find]
    · by_cases h2 : k = k1
      · simp [insert, h2, find]
      · simp [insert, h1, h2, find, ih]

theorem find_insert_ne {V : Type} (m : List (Int × V)) (k i : Int) (v : V) (h : i ≠ k) :
    find (insert m k v) i = find m i := by
  induction m with
  | nil => simp [insert, find, h]
  | cons hd t ih =>
    obtain ⟨k1, v1⟩ := hd
    by_cases h1 : k < k1
    · simp [insert, h1, find, h]
    · by_cases h2 : k = k1
      · subst h2
        simp [insert, find, h]
      · simp only [insert, h1, h2, if_false, find, ih]

theorem find_erase_self {V : Type} (m : List (Int × V)) (k : Int) :
    find (erase m k) k = none := by
  induction m with
  | nil => simp [erase, find]
  | cons hd t ih =>
    obtain ⟨k1, v1⟩ := hd
    by_cases h1 : k = k1
    · simp [erase, h1]
      simpa [h1] using ih
    · simp [erase, h1, find, ih]

theorem find_erase_ne {V : Type} (m : List (Int × V)) (k i : Int) (h : i ≠ k) :
    find (erase m k) i = find m i := by
  induction m with
  | nil => simp [erase, find]
  | cons hd t ih =>
    obtain ⟨k1, v1⟩ := hd
    by_cases h1 : k = k1
    · subst h1
      simp [erase, find, h, ih]
    · simp only [erase, h1, if_false, find, ih]

theorem find_eq_none_iff {V : Type} (m : List (Int × V)) (k : Int) :
    find m k = none ↔ k ∉ keys m := by
  induction m with
  | nil => simp [find, keys]
  | cons hd t ih =>
    obtain ⟨k1, v1⟩ := hd
    by_cases h1 : k = k1
    · simp [find, keys, h1]
    · simp only [find, h1, if_false, ih, keys, List.map_cons, List.mem_cons, false_or]

theorem mem_keys_insert {V : Type} (m : List (Int × V)) (k i : Int) (v : V) :
    i ∈ keys (insert m k v) ↔ i = k ∨ i ∈ keys m := by
  rw [← not_iff_not, ← find_eq_none_iff]
  by_cases h : i = k
  · subst h
    simp [find_insert_self]
  · rw [find_insert_ne m k i v h, find_eq_none_iff]
    simp [h]

theorem mem_keys_erase {V : Type} (m : List (Int × V)) (k i : Int) :
    i ∈ keys (erase m k) ↔ i ≠ k ∧ i ∈ keys m := by
  rw [← not_iff_not, ← find_eq_none_iff]
  by_cases h : i = k
  · subst h
    simp [find_erase_self]
  · rw [find_erase_ne m k i h, find_eq_none_iff]
    simp [h]

end StdMap

theorem wrap32_of_InInt (x : Int) (h : InInt x) : wrap32 x = x := by
  unfold InInt INT_MIN INT_MAX at h
  unfold wrap32
  omega

theorem count_adds_append (a b : List MailboxCall) :
    count_adds (a ++ b) = count_adds a + count_adds b := by
  induction a with
  | nil => simp [count_adds]
  | cons h t ih =>
    cases h
    · show count_adds (t ++ b) + 1 = count_adds t + 1 + count_adds b
      omega
    · exact ih

theorem add_mailbox_inv (c : cluster_t) (heap : MailboxHeap) (p : Nat) (hinv : MailboxInv c)
    (hroom : c.mailbox_map.head + 1 ≤ INT_MAX) :
    MailboxInv (cluster_t.add_mailbox c heap p).1 ∧
    (cluster_t.add_mailbox c heap p).1.mailbox_map.head = c.mailbox_map.head + 1 := by
  obtain ⟨hk, hr⟩ := hinv
  have hw : wrap32 (c.mailbox_map.head + 1) = c.mailbox_map.head + 1 := by
    apply wrap32_of_InInt
    unfold InInt at *
    omega
  refine ⟨⟨?_, ?_⟩, ?_⟩
  · intro k hk1
    simp only [cluster_t.add_mailbox, hw] at hk1 ⊢
    rcases (StdMap.mem_keys_insert _ _ _ _).1 hk1 with h | h
    · omega
    · have := hk k h
      omega
  · simp only [cluster_t.add_mailbox, hw]
    unfold InInt at *
    omega
  · simp only [cluster_t.add_mailbox, hw]

theorem remove_mailbox_inv (c : cluster_t) (heap : MailboxHeap) (p : Nat) (hinv : MailboxInv c) :
    MailboxInv (cluster_t.remove_mailbox c heap p).1 ∧
    (cluster_t.remove_mailbox c heap p).1.mailbox_map.head = c.mailbox_map.head := by
  obtain ⟨hk, hr⟩ := hinv
  refine ⟨⟨?_, hr⟩, rfl⟩
  intro k hk1
  simp only [cluster_t.remove_mailbox] at hk1 ⊢
  exact hk k ((StdMap.mem_keys_erase _ _ _).1 hk1).2

theorem run_calls_inv (tr : List MailboxCall) : ∀ (c : cluster_t) (heap : MailboxHeap),
    MailboxInv c → c.mailbox_map.head + count_adds tr ≤ INT_MAX →
    MailboxInv (run_calls (c, heap) tr).1 ∧
    (run_calls (c, heap) tr).1.mailbox_map.head = c.mailbox_map.head + count_adds tr := by
  induction tr with
  | nil => intro c heap hinv _; simp [run_calls, count_adds, hinv]
  | cons h t ih =>
    intro c heap hinv hroom
    cases h with
    | add p =>
      simp only [count_adds, Nat.cast_add, Nat.cast_one] at hroom
      obtain ⟨h1, h2⟩ := add_mailbox_inv c heap p hinv (by omega)
      have := ih (cluster_t.add_mailbox c heap p).1 (cluster_t.add_mailbox c heap p).2 h1 (by omega)
      simp only [run_calls, List.foldl_cons, MailboxCall.apply, count_adds, Nat.cast_add,
        Nat.cast_one] at this ⊢
      refine ⟨this.1, ?_⟩
      rw [this.2, h2]
      omega
    | remove p =>
      simp only [count_adds] at hroom
      obtain ⟨h1, h2⟩ := remove_mailbox_inv c heap p hinv
      have := ih (cluster_t.remove_mailbox c heap p).1 (cluster_t.remove_mailbox c heap p).2 h1
        (by omega)
      simp only [run_calls, List.foldl_cons, MailboxCall.apply, count_adds] at this ⊢
      refine ⟨this.1, ?_⟩
      rw [this.2, h2]

theorem handed_out_eq (tr : List MailboxCall) : ∀ (c : cluster_t) (heap : MailboxHeap),
    MailboxInv c → c.mailbox_map.head + count_adds tr ≤ INT_MAX →
    handed_out (c, heap) tr =
      (List.range (count_adds tr)).map (fun j : Nat => c.mailbox_map.head + (j : Int)) := by
  induction tr with
  | nil => intro c heap _ _; simp [handed_out, count_adds]
  | cons h t ih =>
    intro c heap hinv hroom
    cases h with
    | add p =>
      simp only [count_adds, Nat.cast_add, Nat.cast_one] at hroom
      obtain ⟨h1, h2⟩ := add_mailbox_inv c heap p hinv (by omega)
      have := ih (cluster_t.add_mailbox c heap p).1 (cluster_t.add_mailbox c heap p).2 h1 (by omega)
      simp only [handed_out, count_adds, this, h2]
      rw [List.range_succ_eq_map]
      simp only [List.map_cons, List.map_map, Nat.cast_zero, add_zero]
      congr 1
      · simp [cluster_t.add_mailbox]
      · apply List.map_congr_left
        intro j _
        simp only [Function.comp, Nat.cast_succ]
        omega
    | remove p =>
      simp only [count_adds] at hroom
      obtain ⟨h1, h2⟩ := remove_mailbox_inv c heap p hinv
      have := ih (cluster_t.remove_mailbox c heap p).1 (cluster_t.remove_mailbox c heap p).2 h1
        (by omega)
      simp only [handed_out, count_adds, this, h2]

theorem registered_below (tr : List MailboxCall) : ∀ (next i : Int), i < next →
    registered next tr i = none := by
  induction tr with
  | nil => intro next i _; rfl
  | cons h t ih =>
    intro next i hi
    cases h with
    | add p =>
      have h1 : i ≠ next := by omega
      simp only [registered, h1, if_false]
      exact ih (next + 1) i (by omega)
    | remove p => simpa [registered] using ih next i hi

theorem registry_add (live : List Nat) (c : cluster_t) (heap : MailboxHeap) (p : Nat)
    (hreg : Registry live c heap) (hinv : MailboxInv c) (hp : p ∉ live) :
    Registry (p :: live) (cluster_t.add_mailbox c heap p).1 (cluster_t.add_mailbox c heap p).2 := by
  obtain ⟨h1, h2⟩ := hreg
  have hfresh : ∀ q ∈ live, heap q ≠ c.mailbox_map.head := by
    intro q hq heq
    have hk : heap q ∈ StdMap.keys c.mailbox_map.map := by
      by_contra hn
      rw [← StdMap.find_eq_none_iff] at hn
      rw [h1 q hq] at hn
      exact Option.noConfusion hn
    have := hinv.1 _ hk
    omega
  constructor
  · intro q hq
    simp only [cluster_t.add_mailbox]
    rcases List.mem_cons.1 hq with rfl | hq
    · simp [StdMap.find_insert_self]
    · have hne : q ≠ p := fun h => hp (h ▸ hq)
      rw [Function.update_noteq hne, StdMap.find_insert_ne _ _ _ _ (hfresh q hq)]
      exact h1 q hq
  · intro k v hk
    simp only [cluster_t.add_mailbox] at hk ⊢
    by_cases hkh : k = c.mailbox_map.head
    · subst hkh
      rw [StdMap.find_insert_self] at hk
      refine ⟨p, List.mem_cons_self _ _, ?_, by simp⟩
      exact (Option.some.inj hk).symm
    · rw [StdMap.find_insert_ne _ _ _ _ hkh] at hk
      obtain ⟨q, hq, hv, hhq⟩ := h2 k v hk
      have hne : q ≠ p := fun h => hp (h ▸ hq)
      exact ⟨q, List.mem_cons_of_mem _ hq, hv, by rw [Function.update_noteq hne]; exact hhq⟩

theorem registry_remove (live : List Nat) (c : cluster_t) (heap : MailboxHeap) (p : Nat)
    (hreg : Registry live c heap) (hp : p ∈ live) :
    Registry (live.filter (· ≠ p)) (cluster_t.remove_mailbox c heap p).1
      (cluster_t.remove_mailbox c heap p).2 := by
  obtain ⟨h1, h2⟩ := hreg
  constructor
  · intro q hq
    simp only [List.mem_filter, decide_eq_true_eq] at hq
    obtain ⟨hq, hne⟩ := hq
    simp only [cluster_t.remove_mailbox]
    rw [Function.update_noteq hne]
    have hk : heap q ≠ heap p := by
      intro heq
      have a := h1 q hq
      rw [heq, h1 p hp] at a
      exact hne (Option.some.inj (Option.some.inj a)).symm
    rw [StdMap.find_erase_ne _ _ _ hk]
    exact h1 q hq
  · intro k v hk
    simp only [cluster_t.remove_mailbox] at hk ⊢
    have hkp : k ≠ heap p := by
      intro heq
      rw [heq, StdMap.find_erase_self] at hk
      exact Option.noConfusion hk
    rw [StdMap.find_erase_ne _ _ _ hkp] at hk
    obtain ⟨q, hq, hv, hhq⟩ := h2 k v hk
    have hne : q ≠ p := by
      intro h
      rw [h] at hhq
      exact hkp hhq.symm
    refine ⟨q, ?_, hv, ?_⟩
    · simp [List.mem_filter, hq, hne]
    · rw [Function.update_noteq hne]; exact hhq

theorem get_mailbox_run (tr : List MailboxCall) :
    ∀ (live : List Nat) (c : cluster_t) (heap : MailboxHeap),
    Registry live c heap → MailboxInv c → Lifetimes live tr →
    c.mailbox_map.head + count_adds tr ≤ INT_MAX → ∀ i : Int,
    cluster_t.get_mailbox (run_calls (c, heap) tr).1 i =
      if c.mailbox_map.head ≤ i then registered c.mailbox_map.head tr i
      else match cluster_t.get_mailbox c i with
        | some q => if MailboxCall.remove q ∈ tr then none else some q
        | none => none := by
  induction tr with
  | nil =>
    intro live c heap _ hinv _ _ i
    by_cases hi : c.mailbox_map.head ≤ i
    · have hk : i ∉ StdMap.keys c.mailbox_map.map := fun h => by
        have := hinv.1 i h
        omega
      rw [← StdMap.find_eq_none_iff] at hk
      simp [run_calls, hi, registered, cluster_t.get_mailbox, hk]
    · simp only [run_calls, List.foldl_nil, hi, if_false, List.not_mem_nil]
      cases cluster_t.get_mailbox c i <;> rfl
  | cons h t ih =>
    intro live c heap hreg hinv hlife hroom i
    cases h with
    | add p =>
      simp only [count_adds, Nat.cast_add, Nat.cast_one] at hroom
      obtain ⟨hp, hlife⟩ := hlife
      obtain ⟨hinv1, hhead⟩ := add_mailbox_inv c heap p hinv (by omega)
      have hreg1 := registry_add live c heap p hreg hinv hp
      have := ih (p :: live) _ _ hreg1 hinv1 hlife (by rw [hhead]; omega) i
      simp only [run_calls, List.foldl_cons, MailboxCall.apply] at this ⊢
      rw [this, hhead]
      by_cases h1 : c.mailbox_map.head + 1 ≤ i
      · have h2 : c.mailbox_map.head ≤ i := by omega
        have h3 : i ≠ c.mailbox_map.head := by omega
        simp only [h1, h2, if_true, registered, h3, if_false]
      · by_cases h2 : i = c.mailbox_map.head
        · subst h2
          simp [cluster_t.get_mailbox, cluster_t.add_mailbox, StdMap.find_insert_self, registered]
        · have h3 : ¬ c.mailbox_map.head ≤ i := by omega
          have h4 : cluster_t.get_mailbox (cluster_t.add_mailbox c heap p).1 i =
              cluster_t.get_mailbox c i := by
            simp only [cluster_t.get_mailbox, cluster_t.add_mailbox]
            rw [StdMap.find_insert_ne _ _ _ _ h2]
          simp only [h1, h3, if_false, h4]
          cases cluster_t.get_mailbox c i <;> simp
    | remove p =>
      simp only [count_adds] at hroom
      obtain ⟨hp, hlife⟩ := hlife
      obtain ⟨hinv1, hhead⟩ := remove_mailbox_inv c heap p hinv
      have hreg1 := registry_remove live c heap p hreg hp
      have := ih _ _ _ hreg1 hinv1 hlife (by rw [hhead]; omega) i
      simp only [run_calls, List.foldl_cons, MailboxCall.apply] at this ⊢
      rw [this, hhead]
      by_cases h1 : c.mailbox_map.head ≤ i
      · simp only [h1, if_true, registered]
      · simp only [h1, if_false]
        by_cases h2 : i = heap p
        · subst h2
          have a : cluster_t.get_mailbox c (heap p) = some p := by
            simp [cluster_t.get_mailbox, hreg.1 p hp]
          have b : cluster_t.get_mailbox (cluster_t.remove_mailbox c heap p).1 (heap p) = none := by
            simp [cluster_t.get_mailbox, cluster_t.remove_mailbox, StdMap.find_erase_self]
          simp [a, b]
        · have h4 : cluster_t.get_mailbox (cluster_t.remove_mailbox c heap p).1 i =
              cluster_t.get_mailbox c i := by
            simp only [cluster_t.get_mailbox, cluster_t.remove_mailbox]
            rw [StdMap.find_erase_ne _ _ _ h2]
          rw [h4]
          cases hg : cluster_t.get_mailbox c i with
          | none => rfl
          | some q =>
            have hq : q ≠ p := by
              intro hqp
              subst hqp
              simp only [cluster_t.get_mailbox] at hg
              cases hf : StdMap.find c.mailbox_map.map i with
              | none => simp [hf] at hg
              | some v =>
                obtain ⟨r, _, hv, hr⟩ := hreg.2 i v hf
                simp only [hf, hv] at hg
                have : r = q := Option.some.inj hg
                subst this
                exact h2 hr.symm
            simp [hq]

theorem run_calls_registry (pre post : List MailboxCall) :
    ∀ (live : List Nat) (c : cluster_t) (heap : MailboxHeap),
    Registry live c heap → MailboxInv c → Lifetimes live (pre ++ post) →
    c.mailbox_map.head + count_adds pre ≤ INT_MAX →
    ∃ live1, Registry live1 (run_calls (c, heap) pre).1 (run_calls (c, heap) pre).2 ∧
      Lifetimes live1 post := by
  induction pre with
  | nil => intro live c heap hreg _ hlife _; exact ⟨live, hreg, hlife⟩
  | cons h t ih =>
    intro live c heap hreg hinv hlife hroom
    cases h with
    | add p =>
      simp only [count_adds, Nat.cast_add, Nat.cast_one] at hroom
      obtain ⟨hp, hlife⟩ := hlife
      obtain ⟨hinv1, hhead⟩ := add_mailbox_inv c heap p hinv (by omega)
      have h := ih (p :: live) (cluster_t.add_mailbox c heap p).1 (cluster_t.add_mailbox c heap p).2
        (registry_add live c heap p hreg hinv hp) hinv1 hlife (by rw [hhead]; omega)
      simpa only [run_calls, List.foldl_cons, MailboxCall.apply] using h
    | remove p =>
      simp only [count_adds] at hroom
      obtain ⟨hp, hlife⟩ := hlife
      obtain ⟨hinv1, hhead⟩ := remove_mailbox_inv c heap p hinv
      have h := ih _ (cluster_t.remove_mailbox c heap p).1 (cluster_t.remove_mailbox c heap p).2
        (registry_remove live c heap p hreg hp) hinv1 hlife (by rw [hhead]; omega)
      simpa only [run_calls, List.foldl_cons, MailboxCall.apply] using h

/-- C1: along every sequence of `add_mailbox` and `remove_mailbox` calls
that stays within the range of `int`, each `add_mailbox` stores the current
`head` in the mailbox, finds no entry under it (so it overwrites nothing) and
raises `head` by one; the ids handed out are strictly increasing, hence never
repeated, and every key of the mailbox map stays below `head`. -/
theorem C1_ids_strictly_increasing (c : cluster_t) (heap : MailboxHeap) (tr : List MailboxCall)
    (hinv : MailboxInv c) (hroom : c.mailbox_map.head + count_adds tr ≤ INT_MAX) :
    (∀ pre p post, tr = pre ++ MailboxCall.add p :: post →
      (cluster_t.add_mailbox (run_calls (c, heap) pre).1 (run_calls (c, heap) pre).2 p).2 p
        = (run_calls (c, heap) pre).1.mailbox_map.head ∧
      (cluster_t.add_mailbox (run_calls (c, heap) pre).1
          (run_calls (c, heap) pre).2 p).1.mailbox_map.head
        = (run_calls (c, heap) pre).1.mailbox_map.head + 1 ∧
      StdMap.find (run_calls (c, heap) pre).1.mailbox_map.map
        (run_calls (c, heap) pre).1.mailbox_map.head = none ∧
      cluster_t.get_mailbox (cluster_t.add_mailbox (run_calls (c, heap) pre).1
          (run_calls (c, heap) pre).2 p).1 (run_calls (c, heap) pre).1.mailbox_map.head
        = some p) ∧
    (handed_out (c, heap) tr).Pairwise (· < ·) ∧
    (handed_out (c, heap) tr).Nodup ∧
    (∀ pre post, tr = pre ++ post →
      ∀ k ∈ StdMap.keys (run_calls (c, heap) pre).1.mailbox_map.map,
        k < (run_calls (c, heap) pre).1.mailbox_map.head) := by
  have hpair : (handed_out (c, heap) tr).Pairwise (· < ·) := by
    rw [handed_out_eq tr c heap hinv hroom, List.pairwise_map]
    exact (List.pairwise_lt_range _).imp (fun h => by omega)
  refine ⟨?_, hpair, hpair.imp (fun h => ne_of_lt h), ?_⟩
  · intro pre p post htr
    have hc : (count_adds tr : Int) = count_adds pre + (count_adds post + 1) := by
      rw [htr, count_adds_append]; simp [count_adds]
    obtain ⟨hinv1, hhead⟩ := run_calls_inv pre c heap hinv (by omega)
    obtain ⟨_, hhead2⟩ := add_mailbox_inv _ (run_calls (c, heap) pre).2 p hinv1
      (by rw [hhead]; omega)
    refine ⟨by simp [cluster_t.add_mailbox], hhead2, ?_, ?_⟩
    · rw [StdMap.find_eq_none_iff]
      intro hk
      have := hinv1.1 _ hk
      omega
    · simp [cluster_t.get_mailbox, cluster_t.add_mailbox, StdMap.find_insert_self]
  · intro pre post htr
    have hc : (count_adds tr : Int) = count_adds pre + count_adds post := by
      rw [htr, count_adds_append]; simp
    exact (run_calls_inv pre c heap hinv (by omega)).1.1

/-- C1 at a founder: three mailboxes are constructed, one of them at the
address of a mailbox destroyed before. -/
theorem C1_ids_strictly_increasing_witness :
    handed_out (founder 1 2, no_ids)
      [MailboxCall.add 1, MailboxCall.add 2, MailboxCall.remove 1, MailboxCall.add 1] = [0, 1, 2] ∧
    (handed_out (founder 1 2, no_ids)
      [MailboxCall.add 1, MailboxCall.add 2, MailboxCall.remove 1, MailboxCall.add 1]).Nodup :=
  ⟨by decide,
   (C1_ids_strictly_increasing (founder 1 2) no_ids
      [MailboxCall.add 1, MailboxCall.add 2, MailboxCall.remove 1, MailboxCall.add 1]
      ⟨by decide, by decide⟩ (by decide)).2.2.1⟩

/-- C2: after any sequence of calls made by live mailboxes on a cluster whose
mailbox map started empty, `get_mailbox i` is the mailbox registered under
`i` if it has not been removed and `NULL` otherwise; and each
`remove_mailbox m` of the sequence finds `m` under its id, erases that entry
and no other, leaves `head` unchanged and sets the id of `m` to -1. -/
theorem C2_get_mailbox_registered (c : cluster_t) (heap : MailboxHeap) (h0 : Int)
    (tr : List MailboxCall) (hh : InInt h0) (hroom : h0 + count_adds tr ≤ INT_MAX)
    (hlife : Lifetimes [] tr) :
    (∀ i, cluster_t.get_mailbox (run_calls (fresh_mailboxes c h0, heap) tr).1 i
        = registered h0 tr i) ∧
    (∀ pre m post, tr = pre ++ MailboxCall.remove m :: post →
      cluster_t.get_mailbox (run_calls (fresh_mailboxes c h0, heap) pre).1
        ((run_calls (fresh_mailboxes c h0, heap) pre).2 m) = some m ∧
      cluster_t.get_mailbox (cluster_t.remove_mailbox (run_calls (fresh_mailboxes c h0, heap) pre).1
        (run_calls (fresh_mailboxes c h0, heap) pre).2 m).1
        ((run_calls (fresh_mailboxes c h0, heap) pre).2 m) = none ∧
      (∀ i, i ≠ (run_calls (fresh_mailboxes c h0, heap) pre).2 m →
        StdMap.find (cluster_t.remove_mailbox (run_calls (fresh_mailboxes c h0, heap) pre).1
          (run_calls (fresh_mailboxes c h0, heap) pre).2 m).1.mailbox_map.map i
        = StdMap.find (run_calls (fresh_mailboxes c h0, heap) pre).1.mailbox_map.map i) ∧
      (cluster_t.remove_mailbox (run_calls (fresh_mailboxes c h0, heap) pre).1
        (run_calls (fresh_mailboxes c h0, heap) pre).2 m).1.mailbox_map.head
        = (run_calls (fresh_mailboxes c h0, heap) pre).1.mailbox_map.head ∧
      (cluster_t.remove_mailbox (run_calls (fresh_mailboxes c h0, heap) pre).1
        (run_calls (fresh_mailboxes c h0, heap) pre).2 m).2 m = -1) := by
  have hinv : MailboxInv (fresh_mailboxes c h0) :=
    ⟨by intro k hk; simp [fresh_mailboxes, StdMap.keys] at hk, hh⟩
  have hreg : Registry [] (fresh_mailboxes c h0) heap :=
    ⟨by intro p hp; simp at hp, by intro k v hk; simp [fresh_mailboxes, StdMap.find] at hk⟩
  constructor
  · intro i
    rw [get_mailbox_run tr [] (fresh_mailboxes c h0) heap hreg hinv hlife hroom i]
    by_cases hi : (fresh_mailboxes c h0).mailbox_map.head ≤ i
    · simp only [hi, if_true]; rfl
    · simp only [hi, if_false]
      have : cluster_t.get_mailbox (fresh_mailboxes c h0) i = none := by
        simp [cluster_t.get_mailbox, fresh_mailboxes, StdMap.find]
      rw [this]
      exact (registered_below tr h0 i (by simpa [fresh_mailboxes] using hi)).symm
  · intro pre m post htr
    have hc : (count_adds tr : Int) = count_adds pre + count_adds post := by
      rw [htr, count_adds_append]; simp [count_adds]
    obtain ⟨live1, hreg1, hlife1⟩ := run_calls_registry pre (MailboxCall.remove m :: post) []
      (fresh_mailboxes c h0) heap hreg hinv (htr ▸ hlife)
      (by simp only [fresh_mailboxes]; omega)
    have hm := hreg1.1 m hlife1.1
    refine ⟨by simp [cluster_t.get_mailbox, hm], ?_, ?_, rfl, by simp [cluster_t.remove_mailbox]⟩
    · simp [cluster_t.get_mailbox, cluster_t.remove_mailbox, StdMap.find_erase_self]
    · intro i hi
      simp only [cluster_t.remove_mailbox]
      exact StdMap.find_erase_ne _ _ _ hi

/-- C2 at a founder: after two constructions and one destruction the lookups
give the surviving mailbox under id 1 and `NULL` under ids 0 and 2. -/
theorem C2_get_mailbox_registered_witness :
    Lifetimes [] [MailboxCall.add 7, MailboxCall.add 8, MailboxCall.remove 7] ∧
    cluster_t.get_mailbox (run_calls (fresh_mailboxes (founder 1 2) 0, no_ids)
      [MailboxCall.add 7, MailboxCall.add 8, MailboxCall.remove 7]).1 1 = some 8 ∧
    cluster_t.get_mailbox (run_calls (fresh_mailboxes (founder 1 2) 0, no_ids)
      [MailboxCall.add 7, MailboxCall.add 8, MailboxCall.remove 7]).1 0 = none :=
  ⟨by simp [Lifetimes],
   ((C2_get_mailbox_registered (founder 1 2) no_ids 0
      [MailboxCall.add 7, MailboxCall.add 8, MailboxCall.remove 7] (by decide) (by decide)
      (by simp [Lifetimes])).1 1).trans (by decide),
   ((C2_get_mailbox_registered (founder 1 2) no_ids 0
      [MailboxCall.add 7, MailboxCall.add 8, MailboxCall.remove 7] (by decide) (by decide)
      (by simp [Lifetimes])).1 0).trans (by decide)⟩

/-! ## Sending a message -/

theorem index_of_find {V : Type} (m : List (Int × V)) (dflt v : V) (k : Int)
    (h : StdMap.find m k = some v) : StdMap.index m dflt k = (m, v) := by
  simp [StdMap.index, h]

theorem serialize_to_peer_closed (key : Int) (chunks : List (List Nat)) :
    ∀ closes : Option Nat,
    serialize_to_peer key (some { write_closed := true }) closes chunks = .ok [] := by
  induction chunks with
  | nil => intro closes; rfl
  | cons b t ih =>
    intro closes
    by_cases hc : closes = some 0
    · simp [serialize_to_peer, hc, tcp_conn_t.closed, cluster_peer_outpipe_t.do_write, ih]
    · simp [serialize_to_peer, hc, cluster_peer_outpipe_t.do_write, ih]

theorem serialize_to_peer_open (key : Int) (chunks : List (List Nat)) :
    ∀ closes : Option Nat,
    serialize_to_peer key (some { write_closed := false }) closes chunks
      = .ok ((chunks_written closes chunks).map (fun buf => Event.peer_write key (Wire.bytes buf))) := by
  induction chunks with
  | nil =>
    intro closes
    cases closes <;> simp [serialize_to_peer, chunks_written]
  | cons b t ih =>
    intro closes
    cases closes with
    | none =>
      have := ih none
      simp only [chunks_written] at this
      simp [serialize_to_peer, cluster_peer_outpipe_t.do_write, this, chunks_written]
    | some n =>
      cases n with
      | zero =>
        simp [serialize_to_peer, tcp_conn_t.closed, cluster_peer_outpipe_t.do_write,
          serialize_to_peer_closed, chunks_written]
      | succ n =>
        have := ih (some n)
        simp only [chunks_written] at this
        simp [serialize_to_peer, cluster_peer_outpipe_t.do_write, this, chunks_written]

theorem chunks_written_of_open (closes : Option Nat) (chunks : List (List Nat))
    (h : closed_during closes chunks = false) : chunks_written closes chunks = chunks := by
  cases closes with
  | none => rfl
  | some n =>
    simp only [closed_during, decide_eq_false_iff_not, not_lt] at h
    simp [chunks_written, List.take_of_length_le h]

theorem send_message_open (debug : Bool) (closes : Option Nat) (c : cluster_t)
    (peer mailbox : Int) (msg : cluster_message_t) (p : cluster_peer_t)
    (hpeer : StdMap.find c.peers peer = some (some p)) (hremote : p.state ≠ PeerState.us)
    (hconn : p.conn = some { write_closed := false }) :
    cluster_t.send_message debug closes c peer mailbox msg = .ok
      (if closed_during closes msg.serialize then
          cluster_t.set_peer c peer { p with conn := p.conn.map tcp_conn_t.closed }
        else c,
       Event.peer_write peer (Wire.mailbox_msg mailbox (counting_outpipe_t.bytes msg.serialize)
            (if debug then some msg.type_name else none))
          :: (chunks_written closes msg.serialize).map
              (fun buf => Event.peer_write peer (Wire.bytes buf))) := by
  simp only [cluster_t.send_message, hpeer, index_of_find _ _ _ _ hpeer, hremote,
    cluster_peer_t.write, hconn, serialize_to_peer_open, reduceCtorEq, and_false, if_false,
    Bool.false_eq_true, List.singleton_append]
  split_ifs <;> rfl

/-- C3: a message sent to the local node (record in state `us`, `peer == us`)
for a registered mailbox id runs the handler of the mailbox stored under that
id once, with that message, writes to no peer, and returns the cluster as it
was (membership map and mailbox map included). -/
theorem C3_local_send_runs_handler_once (debug : Bool) (closes : Option Nat) (c : cluster_t)
    (peer mailbox : Int) (msg : cluster_message_t) (p : cluster_peer_t) (mbox : Nat)
    (hpeer : StdMap.find c.peers peer = some (some p)) (hstate : p.state = PeerState.us)
    (hus : peer = c.us) (hreg : StdMap.find c.mailbox_map.map mailbox = some (some mbox)) :
    cluster_t.get_mailbox c mailbox = some mbox ∧
    cluster_t.send_message debug closes c peer mailbox msg = .ok (c, [Event.run mbox msg]) := by
  constructor
  · simp [cluster_t.get_mailbox, hreg]
  · subst hus
    simp [cluster_t.send_message, hpeer, hstate, hreg, index_of_find _ _ _ _ hpeer,
      index_of_find _ _ _ _ hreg]

/-- C3 on a founder with one mailbox: the message reaches the handler of
mailbox 5 and nothing else happens. -/
theorem C3_local_send_runs_handler_once_witness :
    StdMap.find founder_with_mailbox.peers 0 = some (some
      { address := 1, port := 2, id := 0, proposer := none, state := PeerState.us, conn := none,
        srvcs := [] }) ∧
    cluster_t.send_message true none founder_with_mailbox 0 0 hi_msg
      = .ok (founder_with_mailbox, [Event.run 5 hi_msg]) :=
  ⟨by decide,
   (C3_local_send_runs_handler_once true none founder_with_mailbox 0 0 hi_msg
      { address := 1, port := 2, id := 0, proposer := none, state := PeerState.us, conn := none,
        srvcs := [] } 5
      (by decide) rfl (by decide) (by decide)).2⟩

/-- C4, the code at the failing input: on a founder with no mailbox, a
message for the local node and mailbox id 0 is not dropped, whatever the
remote ends do. With `rassert` compiled in the call stops at the assertion
that the mailbox exists; without it the subscript yields a null mailbox whose
`run` is called. -/
theorem C4_unregistered_local_send_faults (closes : Option Nat) :
    StdMap.find (founder 1 2).mailbox_map.map 0 = none ∧
    cluster_t.send_message true closes (founder 1 2) 0 0 hi_msg = .error Fault.rassert ∧
    cluster_t.send_message false closes (founder 1 2) 0 0 hi_msg = .error Fault.null_deref ∧
    (StdMap.index (founder 1 2).mailbox_map.map none 0).1 = [(0, none)] := by
  refine ⟨by decide, ?_, ?_, by decide⟩
  · simp [cluster_t.send_message, founder, StdMap.find, StdMap.index]
  · simp [cluster_t.send_message, founder, StdMap.find, StdMap.index, StdMap.insert]

/-- C6 refuted: a remote peer whose record is in state `kill_proposed` and
whose connection is still open is sent both the header and the payload. -/
theorem C6_counterexample_kill_proposed_peer_written :
    StdMap.find (two_nodes PeerState.kill_proposed).peers 1
      = some (some (remote_peer 1 PeerState.kill_proposed)) ∧
    (remote_peer 1 PeerState.kill_proposed).state = PeerState.kill_proposed ∧
    cluster_t.send_message true none (two_nodes PeerState.kill_proposed) 1 0 hi_msg
      = .ok (two_nodes PeerState.kill_proposed,
          [Event.peer_write 1 (Wire.mailbox_msg 0 3 (some "hi")),
           Event.peer_write 1 (Wire.bytes [104]), Event.peer_write 1 (Wire.bytes [105, 0])]) := by
  decide

/-- C6 as amended: `send_message` does not look at the state of a remote
record. For a destination in any state other than `connected` (and other
than `us`) the header and the payload are written when the record has a
connection open for writing that is not closed before the last chunk (if it
is, the header and the chunks before the closing are written); with a
connection closed for writing or with no connection the call fails and
nothing is written. -/
theorem C6_remote_send_ignores_state (debug : Bool) (closes : Option Nat) (c : cluster_t)
    (peer mailbox : Int) (msg : cluster_message_t) (p : cluster_peer_t)
    (hpeer : StdMap.find c.peers peer = some (some p)) (hremote : p.state ≠ PeerState.us)
    (_hstate : p.state ≠ PeerState.connected) :
    (p.conn = some { write_closed := false } →
      cluster_t.send_message debug none c peer mailbox msg = .ok (c,
        Event.peer_write peer (Wire.mailbox_msg mailbox (counting_outpipe_t.bytes msg.serialize)
              (if debug then some msg.type_name else none))
            :: msg.serialize.map (fun buf => Event.peer_write peer (Wire.bytes buf))) ∧
      (closed_during closes msg.serialize = false →
        cluster_t.send_message debug closes c peer mailbox msg
          = cluster_t.send_message debug none c peer mailbox msg) ∧
      ∃ c1, cluster_t.send_message debug closes c peer mailbox msg = .ok (c1,
        Event.peer_write peer (Wire.mailbox_msg mailbox (counting_outpipe_t.bytes msg.serialize)
              (if debug then some msg.type_name else none))
            :: (chunks_written closes msg.serialize).map
                (fun buf => Event.peer_write peer (Wire.bytes buf)))) ∧
    (p.conn = some { write_closed := true } →
      cluster_t.send_message debug closes c peer mailbox msg = .error Fault.write_closed_exc) ∧
    (p.conn = none →
      cluster_t.send_message debug closes c peer mailbox msg = .error Fault.null_deref) := by
  refine ⟨?_, ?_, ?_⟩
  · intro hconn
    have hnone := send_message_open debug none c peer mailbox msg p hpeer hremote hconn
    have hany := send_message_open debug closes c peer mailbox msg p hpeer hremote hconn
    refine ⟨?_, ?_, _, hany⟩
    · rw [hnone]; simp [closed_during, chunks_written]
    · intro hopen
      rw [hnone, hany, chunks_written_of_open closes msg.serialize hopen, hopen]
      simp [closed_during, chunks_written]
  · intro hconn
    simp [cluster_t.send_message, hpeer, index_of_find _ _ _ _ hpeer, hremote,
      cluster_peer_t.write, hconn]
  · intro hconn
    simp [cluster_t.send_message, hpeer, index_of_find _ _ _ _ hpeer, hremote,
      cluster_peer_t.write, hconn]

/-- C6 as amended, on a killed peer whose connection is still open. -/
theorem C6_remote_send_ignores_state_witness :
    (remote_peer 1 PeerState.killed).state ≠ PeerState.connected ∧
    cluster_t.send_message false none (two_nodes PeerState.killed) 1 4 hi_msg
      = .ok (two_nodes PeerState.killed,
          [Event.peer_write 1 (Wire.mailbox_msg 4 3 none),
           Event.peer_write 1 (Wire.bytes [104]), Event.peer_write 1 (Wire.bytes [105, 0])]) :=
  ⟨by decide,
   ((C6_remote_send_ignores_state false none (two_nodes PeerState.killed) 1 4 hi_msg
      (remote_peer 1 PeerState.killed) (by decide) (by decide) (by decide)).1 rfl).1⟩

/-! ## Admission of an unknown peer -/

theorem keys_loop_ids_size {V : Type} (m : List (Int × V)) (n : Nat)
    (h : StdMap.keys m = loop_ids n) : StdMap.size m = n := by
  have := congrArg List.length h
  simpa [StdMap.keys, loop_ids, StdMap.size] using this

theorem mem_loop_ids (n : Nat) (k : Int) : k ∈ loop_ids n ↔ 0 ≤ k ∧ k < n := by
  simp only [loop_ids, Int.toNat_ofNat, List.mem_map, List.mem_range]
  constructor
  · rintro ⟨a, ha, rfl⟩
    exact ⟨Int.ofNat_nonneg a, Int.ofNat_lt.2 ha⟩
  · rintro ⟨h0, h1⟩
    refine ⟨k.toNat, ?_, ?_⟩
    · omega
    · simp [Int.toNat_of_nonneg h0]

/-- C7 refuted: on a membership map with the ids 0 and 2 the first candidate
is 2, the number of records, not 3; id 2 is already a key and the record
stored under it is overwritten. -/
theorem C7_counterexample_gap_in_ids :
    StdMap.keys gap_cluster.peers = [0, 2] ∧
    (cluster_t.propose_to_ourselves gap_cluster ⟨7, 8, -1⟩).2.id = 2 ∧
    StdMap.find gap_cluster.peers 2 = some (some (remote_peer 2 PeerState.connected)) ∧
    StdMap.find (cluster_t.propose_to_ourselves gap_cluster ⟨7, 8, -1⟩).1.peers 2
      = some (some { address := 7, port := 8, id := 2, proposer := some 0,
                     state := PeerState.join_proposed, conn := none, srvcs := [] }) := by
  decide

/-- C7 as amended: on a membership map whose ids are exactly `0 .. n-1` (with
`n` at least 1 and within the range of `int`) the first candidate id is `n`,
the number of records and the largest known id plus one; it is not a key of
the map, a record in state `join_proposed` for the address of the joiner is
stored under it, and the entry of every other id is unchanged. -/
theorem C7_first_candidate_is_next_id (c : cluster_t) (initial : addrinfo) (n : Nat)
    (hdense : StdMap.keys c.peers = loop_ids n) (hpos : 0 < n) (hn : (n : Int) ≤ INT_MAX) :
    (cluster_t.propose_to_ourselves c initial).2
      = { ip := initial.ip, port := initial.port, id := (n : Int) } ∧
    (n : Int) = StdMap.size c.peers ∧
    ((n : Int) - 1 ∈ StdMap.keys c.peers ∧ ∀ k ∈ StdMap.keys c.peers, k ≤ (n : Int) - 1) ∧
    StdMap.find c.peers n = none ∧
    StdMap.find (cluster_t.propose_to_ourselves c initial).1.peers n
      = some (some { address := initial.ip, port := initial.port, id := (n : Int),
                     proposer := some c.us, state := PeerState.join_proposed, conn := none,
                     srvcs := [] }) ∧
    (∀ k : Int, k ≠ n →
      StdMap.find (cluster_t.propose_to_ourselves c initial).1.peers k = StdMap.find c.peers k) := by
  have hsize : StdMap.size c.peers = n := keys_loop_ids_size _ _ hdense
  have hw : wrap32 (n : Int) = n := by
    apply wrap32_of_InInt
    unfold InInt INT_MIN
    constructor
    · omega
    · exact hn
  refine ⟨?_, by rw [hsize], ⟨?_, ?_⟩, ?_, ?_, ?_⟩
  · simp [cluster_t.propose_to_ourselves, hsize, hw]
  · rw [hdense, mem_loop_ids]; omega
  · intro k hk
    rw [hdense, mem_loop_ids] at hk; omega
  · rw [StdMap.find_eq_none_iff, hdense, mem_loop_ids]; omega
  · simp [cluster_t.propose_to_ourselves, hsize, hw, StdMap.find_insert_self]
  · intro k hk
    simp only [cluster_t.propose_to_ourselves, hsize, hw]
    exact StdMap.find_insert_ne _ _ _ _ hk

/-- C7 as amended, on a founder with one connected peer: the candidate is 2. -/
theorem C7_first_candidate_is_next_id_witness :
    StdMap.keys (two_nodes PeerState.connected).peers = loop_ids (2 : Nat) ∧
    (cluster_t.propose_to_ourselves (two_nodes PeerState.connected) ⟨7, 8, -1⟩).2
      = { ip := 7, port := 8, id := 2 } :=
  ⟨by decide,
   (C7_first_candidate_is_next_id (two_nodes PeerState.connected) ⟨7, 8, -1⟩ 2 (by decide)
      (by decide) (by decide)).1⟩

theorem write_ok (p : cluster_peer_t) (k : Int) (w : Wire) (ev : List Event)
    (h : p.write k w = .ok ev) : ev = [Event.peer_write k w] := by
  unfold cluster_peer_t.write at h
  split at h
  · exact Except.noConfusion h
  · split at h
    · exact Except.noConfusion h
    · exact (Except.ok.inj h).symm

theorem mem_keys_set_peer (c : cluster_t) (i n : Int) (p : cluster_peer_t)
    (h : n ∈ StdMap.keys c.peers) : n ∈ StdMap.keys (cluster_t.set_peer c i p).peers := by
  simp only [cluster_t.set_peer]
  exact (StdMap.mem_keys_insert _ _ _ _).2 (Or.inr h)

theorem wait_on_peer_join_ok (env : Interference) (s s1 : Coro) (i : Int)
    (h : cluster_t.wait_on_peer_join env s i = .ok s1) :
    s1.log = s.log ∧
    (∀ n, Keeps env n → n ∈ StdMap.keys s.c.peers → n ∈ StdMap.keys s1.c.peers) := by
  unfold cluster_t.wait_on_peer_join at h
  split at h
  · exact Except.noConfusion h
  · dsimp only at h
    split_ifs at h <;>
      first
        | exact Except.noConfusion h
        | (cases Except.ok.inj h; exact ⟨rfl, fun _ _ hn => hn⟩)
        | (cases Except.ok.inj h; exact ⟨rfl, fun n hk hn => hk _ _ hn⟩)

theorem propose_to_ok (env : Interference) (srvc : Srvc) (propose : addrinfo) (s s1 : Coro)
    (i : Int) (h : cluster_t.propose_to env srvc propose s i = .ok s1) :
    (∀ e ∈ s1.log, e ∈ s.log ∨ ∃ j, e = Event.peer_write j (Wire.Join_propose propose)) ∧
    (∀ n, Keeps env n → n ∈ StdMap.keys s.c.peers → n ∈ StdMap.keys s1.c.peers) := by
  unfold cluster_t.propose_to at h
  split at h
  · cases Except.ok.inj h
    exact ⟨fun e he => Or.inl he, fun _ _ hn => hn⟩
  · split at h
    · exact Except.noConfusion h
    · split at h
      · cases Except.ok.inj h
        exact ⟨fun e he => Or.inl he, fun _ _ hn => hn⟩
      · split at h
        · exact Except.noConfusion h
        · rename_i s2 hw
          obtain ⟨hlog, hkeys⟩ := wait_on_peer_join_ok env s s2 i hw
          split at h
          · exact Except.noConfusion h
          · split at h
            · exact Except.noConfusion h
            · rename_i ev hev
              have hev1 := write_ok _ _ _ _ hev
              cases Except.ok.inj h
              constructor
              · intro e he
                simp only [List.mem_append] at he
                rcases he with he | he
                · exact Or.inl (hlog ▸ he)
                · rw [hev1] at he
                  exact Or.inr ⟨i, List.mem_singleton.1 he⟩
              · intro n hk hn
                exact mem_keys_set_peer _ _ _ _ (hkeys n hk hn)

theorem for_each_propose_ok (env : Interference) (srvc : Srvc) (propose : addrinfo)
    (ids : List Int) : ∀ (s s1 : Coro),
    for_each (cluster_t.propose_to env srvc propose) ids s = .ok s1 →
    (∀ e ∈ s1.log, e ∈ s.log ∨ ∃ j, e = Event.peer_write j (Wire.Join_propose propose)) ∧
    (∀ n, Keeps env n → n ∈ StdMap.keys s.c.peers → n ∈ StdMap.keys s1.c.peers) := by
  induction ids with
  | nil =>
    intro s s1 h
    cases Except.ok.inj h
    exact ⟨fun e he => Or.inl he, fun _ _ hn => hn⟩
  | cons i rest ih =>
    intro s s1 h
    unfold for_each at h
    split at h
    · exact Except.noConfusion h
    · rename_i s2 h2
      obtain ⟨a1, a2⟩ := propose_to_ok env srvc propose s s2 i h2
      obtain ⟨b1, b2⟩ := ih s2 s1 h
      constructor
      · intro e he
        rcases b1 e he with h3 | h3
        · exact a1 e h3
        · exact Or.inr h3
      · intro n hk hn
        exact b2 n hk (a2 n hk hn)

theorem propose_loop_ok (env : Interference) (rest : List Bool) (k : Nat) :
    ∀ (s : Coro) (addr : addrinfo) (rounds : List (List Event))
      (res : Coro × addrinfo × List (List Event)),
    cluster_t.propose_loop env (List.replicate k false ++ true :: rest) s addr rounds = .ok res →
    InInt addr.id → addr.id + k ≤ INT_MAX →
    res.2.1 = { addr with id := addr.id + k } ∧
    (∃ new, res.2.2 = rounds ++ new ∧ new.length = k + 1 ∧
      ∀ (j : Nat) (r : List Event), new[j]? = some r →
        ∀ e ∈ r, ∃ i, e = Event.peer_write i (Wire.Join_propose { addr with id := addr.id + j })) ∧
    (∀ e ∈ res.1.log, e ∈ s.log ∨ ∃ i w, e = Event.peer_write i w) ∧
    (∀ n, Keeps env n → n ∈ StdMap.keys s.c.peers → n ∈ StdMap.keys res.1.c.peers) := by
  induction k with
  | zero =>
    intro s addr rounds res h _ _
    simp only [List.replicate_zero, List.nil_append, cluster_t.propose_loop] at h
    split at h
    · exact Except.noConfusion h
    · rename_i s1 h1
      obtain ⟨a1, a2⟩ := for_each_propose_ok env _ addr _ _ s1 h1
      simp only [if_true] at h
      cases Except.ok.inj h
      refine ⟨by simp, ⟨[s1.log], rfl, rfl, ?_⟩, ?_, ?_⟩
      · intro j r hj e he
        cases j with
        | zero =>
          simp only [List.getElem?_cons_zero, Option.some.injEq] at hj
          subst hj
          rcases a1 e he with h3 | h3
          · simp at h3
          · simpa using h3
        | succ j => simp at hj
      · intro e he
        simp only [Coro.suspend, List.mem_append] at he
        rcases he with he | he
        · exact Or.inl he
        · rcases a1 e he with h3 | ⟨i, h3⟩
          · simp at h3
          · exact Or.inr ⟨i, _, h3⟩
      · intro n hk hn
        exact hk _ _ (a2 n hk hn)
  | succ k ih =>
    intro s addr rounds res h hin hroom
    simp only [List.replicate_succ, List.cons_append, cluster_t.propose_loop] at h
    split at h
    · exact Except.noConfusion h
    · rename_i s1 h1
      obtain ⟨a1, a2⟩ := for_each_propose_ok env _ addr _ _ s1 h1
      simp only [Bool.false_eq_true, if_false] at h
      have hw : wrap32 (addr.id + 1) = addr.id + 1 := by
        apply wrap32_of_InInt
        unfold InInt at *
        push_cast at hroom
        omega
      rw [hw] at h
      obtain ⟨b1, ⟨new, b2, b3, b4⟩, b5, b6⟩ := ih _ _ _ res h
        (by unfold InInt at *; push_cast at hroom; simp only; omega)
        (by push_cast at hroom; simp only; omega)
      refine ⟨?_, ⟨s1.log :: new, ?_, ?_, ?_⟩, ?_, ?_⟩
      · rw [b1]; simp only [Nat.cast_add, Nat.cast_one, addrinfo.mk.injEq, true_and]; omega
      · rw [b2]; simp
      · simp [b3]
      · intro j r hj e he
        cases j with
        | zero =>
          simp only [List.getElem?_cons_zero, Option.some.injEq] at hj
          subst hj
          rcases a1 e he with h3 | h3
          · simp at h3
          · simpa using h3
        | succ j =>
          simp only [List.getElem?_cons_succ] at hj
          obtain ⟨i, hi⟩ := b4 j r hj e he
          refine ⟨i, ?_⟩
          rw [hi]
          simp only [Nat.cast_add, Nat.cast_one, Event.peer_write.injEq, Wire.Join_propose.injEq,
            addrinfo.mk.injEq, true_and]
          omega
      · intro e he
        rcases b5 e he with h3 | h3
        · simp only [Coro.suspend, List.mem_append] at h3
          rcases h3 with h3 | h3
          · exact Or.inl h3
          · rcases a1 e h3 with h4 | ⟨i, h4⟩
            · simp at h4
            · exact Or.inr ⟨i, _, h4⟩
        · exact Or.inr h3
      · intro n hk hn
        exact b6 n hk (hk _ _ (a2 n hk hn))

theorem peer_at_ok (c : cluster_t) (i : Int) (p : cluster_peer_t)
    (h : cluster_t.peer_at c i = .ok p) : StdMap.find c.peers i = some (some p) := by
  unfold cluster_t.peer_at StdMap.index at h
  cases hf : StdMap.find c.peers i with
  | none => simp [hf] at h
  | some v =>
    cases v with
    | none => simp [hf] at h
    | some q =>
      simp only [hf] at h
      rw [Except.ok.inj h]

theorem propose_loop_log (env : Interference) (responses : List Bool) :
    ∀ (s : Coro) (addr : addrinfo) (rounds : List (List Event))
      (res : Coro × addrinfo × List (List Event)),
    cluster_t.propose_loop env responses s addr rounds = .ok res →
    ∀ e ∈ res.1.log, e ∈ s.log ∨ ∃ i w, e = Event.peer_write i w := by
  induction responses with
  | nil => intro s addr rounds res h; exact Except.noConfusion h
  | cons r rest ih =>
    intro s addr rounds res h
    unfold cluster_t.propose_loop at h
    split at h
    · exact Except.noConfusion h
    · rename_i s1 h1
      obtain ⟨a1, _⟩ := for_each_propose_ok env _ addr _ _ s1 h1
      have hround : ∀ e ∈ s.log ++ s1.log, e ∈ s.log ∨ ∃ i w, e = Event.peer_write i w := by
        intro e he
        rcases List.mem_append.1 he with he | he
        · exact Or.inl he
        · rcases a1 e he with h3 | ⟨i, h3⟩
          · simp at h3
          · exact Or.inr ⟨i, _, h3⟩
      dsimp only at h
      split_ifs at h
      · cases Except.ok.inj h
        exact hround
      · intro e he
        rcases ih _ _ _ res h e he with h3 | h3
        · exact hround e h3
        · exact Or.inr h3

theorem mk_official_to_ok (srvc : Srvc) (addr : addrinfo) (s s1 : Coro) (k : Int)
    (h : cluster_t.mk_official_to srvc addr s k = .ok s1) :
    (∀ e ∈ s1.log, e ∈ s.log ∨ ∃ i w, e = Event.peer_write i w) ∧
    (∀ n, n ∈ StdMap.keys s.c.peers → n ∈ StdMap.keys s1.c.peers) := by
  unfold cluster_t.mk_official_to at h
  split_ifs at h
  · split at h
    · exact Except.noConfusion h
    · split_ifs at h
      · split at h
        · exact Except.noConfusion h
        · rename_i ev hev
          have hev1 := write_ok _ _ _ _ hev
          cases Except.ok.inj h
          constructor
          · intro e he
            rcases List.mem_append.1 he with he | he
            · exact Or.inl he
            · rw [hev1] at he
              exact Or.inr ⟨k, _, List.mem_singleton.1 he⟩
          · intro n hn
            exact mem_keys_set_peer _ _ _ _ hn
      · cases Except.ok.inj h
        exact ⟨fun e he => Or.inl he, fun _ hn => hn⟩
  · cases Except.ok.inj h
    exact ⟨fun e he => Or.inl he, fun _ hn => hn⟩

theorem for_each_mk_official_ok (srvc : Srvc) (addr : addrinfo) (ids : List Int) :
    ∀ (s s1 : Coro), for_each (cluster_t.mk_official_to srvc addr) ids s = .ok s1 →
    (∀ e ∈ s1.log, e ∈ s.log ∨ ∃ i w, e = Event.peer_write i w) ∧
    (∀ n, n ∈ StdMap.keys s.c.peers → n ∈ StdMap.keys s1.c.peers) := by
  induction ids with
  | nil =>
    intro s s1 h
    cases Except.ok.inj h
    exact ⟨fun e he => Or.inl he, fun _ hn => hn⟩
  | cons i rest ih =>
    intro s s1 h
    unfold for_each at h
    split at h
    · exact Except.noConfusion h
    · rename_i s2 h2
      obtain ⟨a1, a2⟩ := mk_official_to_ok srvc addr s s2 i h2
      obtain ⟨b1, b2⟩ := ih s2 s1 h
      constructor
      · intro e he
        rcases b1 e he with h3 | h3
        · exact a1 e h3
        · exact Or.inr h3
      · intro n hn
        exact b2 n (a2 n hn)

theorem make_official_ok (env : Interference) (s s2 : Coro) (addr : addrinfo)
    (h : cluster_t.make_official env s addr = .ok s2) :
    (∀ e ∈ s2.log, e ∈ s.log ∨ ∃ i w, e = Event.peer_write i w) ∧
    (∀ n, Keeps env n → n ∈ StdMap.keys s.c.peers → n ∈ StdMap.keys s2.c.peers) := by
  unfold cluster_t.make_official at h
  split at h
  · exact Except.noConfusion h
  · dsimp only at h
    split at h
    · exact Except.noConfusion h
    · rename_i s3 h3
      obtain ⟨a1, a2⟩ := for_each_mk_official_ok _ _ _ _ _ h3
      cases Except.ok.inj h
      constructor
      · intro e he
        exact a1 e he
      · intro n hk hn
        exact hk _ _ (a2 n (mem_keys_set_peer _ _ _ _ hn))

theorem welcome_entry_ok (env : Interference) (s s1 : Coro) (i : Int) (e : peer)
    (h : cluster_t.welcome_entry env s i = .ok (s1, e)) :
    s1 = s ∧ ∃ p, StdMap.find s.c.peers i = some (some p) ∧
      e = { addr := { ip := p.address, port := p.port, id := i },
            state := if p.state = PeerState.killed then peer_state.KILLED else peer_state.LIVE } := by
  unfold cluster_t.welcome_entry at h
  by_cases hf : StdMap.find s.c.peers i = none
  · have hw : cluster_t.wait_on_peer_join env s i = .error Fault.null_deref := by
      simp [cluster_t.wait_on_peer_join, cluster_t.peer_at, StdMap.index, hf]
    simp [hf, hw] at h
  · simp only [hf, if_false] at h
    split at h
    · exact Except.noConfusion h
    · rename_i p hp
      have h1 := Prod.mk.inj (Except.ok.inj h)
      exact ⟨h1.1.symm, p, peer_at_ok _ _ _ hp, h1.2.symm⟩

theorem welcome_peers_ok (env : Interference) (ids : List Int) :
    ∀ (s s1 : Coro) (ps : List peer), cluster_t.welcome_peers env ids s = .ok (s1, ps) →
    s1 = s ∧ ps.map (fun e => e.addr.id) = ids ∧
    ∀ e ∈ ps, ∃ p, StdMap.find s.c.peers e.addr.id = some (some p) ∧
      e.addr.ip = p.address ∧ e.addr.port = p.port ∧
      e.state = if p.state = PeerState.killed then peer_state.KILLED else peer_state.LIVE := by
  induction ids with
  | nil =>
    intro s s1 ps h
    have h1 := Prod.mk.inj (Except.ok.inj h)
    rw [← h1.1, ← h1.2]
    simp
  | cons i rest ih =>
    intro s s1 ps h
    unfold cluster_t.welcome_peers at h
    split at h
    · exact Except.noConfusion h
    · rename_i s2 e he
      obtain ⟨hs, p, hp, hee⟩ := welcome_entry_ok env s s2 i e he
      subst hs
      split at h
      · exact Except.noConfusion h
      · rename_i s3 es hes
        obtain ⟨hs3, hids, hall⟩ := ih _ _ _ hes
        have h1 := Prod.mk.inj (Except.ok.inj h)
        rw [← h1.1, ← h1.2]
        refine ⟨hs3, ?_, ?_⟩
        · simp [hids, hee]
        · intro e1 he1
          rcases List.mem_cons.1 he1 with rfl | he1
          · exact ⟨p, by rw [hee]; exact hp, by rw [hee], by rw [hee], by rw [hee]⟩
          · exact hall e1 he1

theorem welcomes_sent_append (a b : List Event) :
    welcomes_sent (a ++ b) = welcomes_sent a ++ welcomes_sent b := by
  induction a with
  | nil => rfl
  | cons e t ih =>
    cases e with
    | peer_write i w => simpa [welcomes_sent] using ih
    | run m msg => simpa [welcomes_sent] using ih
    | conn_write w =>
      cases w <;> simp [welcomes_sent, ih]

theorem welcomes_sent_peer_writes (l : List Event)
    (h : ∀ e ∈ l, ∃ i w, e = Event.peer_write i w) : welcomes_sent l = [] := by
  induction l with
  | nil => rfl
  | cons e t ih =>
    obtain ⟨i, w, rfl⟩ := h e (List.mem_cons_self _ _)
    simpa [welcomes_sent] using ih (fun e he => h e (List.mem_cons_of_mem _ he))

theorem welcomes_sent_intro (conn : tcp_conn_t) (chunks : List (List Nat)) :
    welcomes_sent ((chunks.map (intro_do_write conn)).flatten) = [] := by
  induction chunks with
  | nil => rfl
  | cons b t ih =>
    simp only [List.map_cons, List.flatten_cons, welcomes_sent_append, ih, List.append_nil]
    unfold intro_do_write
    split_ifs <;> rfl

theorem welcome_phase_ok (env : Interference) (conn : tcp_conn_t) (intro : List (List Nat))
    (s s3 : Coro) (addr : addrinfo) (h : cluster_t.welcome_phase env conn intro s addr = .ok s3) :
    s3.c = s.c ∧ ∃ ps, welcomes_sent s3.log = welcomes_sent s.log ++ [(addr, ps)] ∧
      ps.map (fun e => e.addr.id) = loop_ids addr.id ∧
      ∀ e ∈ ps, ∃ p, StdMap.find s.c.peers e.addr.id = some (some p) ∧
        e.addr.ip = p.address ∧ e.addr.port = p.port ∧
        e.state = if p.state = PeerState.killed then peer_state.KILLED else peer_state.LIVE := by
  unfold cluster_t.welcome_phase at h
  split at h
  · exact Except.noConfusion h
  · rename_i s1 ps hps
    obtain ⟨hs, hids, hall⟩ := welcome_peers_ok env _ _ _ _ hps
    subst hs
    unfold write_protob at h
    split_ifs at h
    cases Except.ok.inj h
    refine ⟨rfl, ps, ?_, hids, hall⟩
    simp [welcomes_sent_append, welcomes_sent_intro, welcomes_sent]

/-- C8, the code at the failing input (scenario S6, `k = 1`): on a node with
the ids 0 and 1 the first round proposes id 2 and is rejected, the second
round proposes id 3 and is accepted, so the candidate does advance by one.
But no id is finally assigned: the loop ends with candidate 3, under which no
record was ever created, and `handle_unknown_peer` faults on the null
pointer of line 171 before anything is welcomed. The record created under
the initial candidate id 2 (address of the joiner, proposer `us`, state
`join_proposed`) is not in the map afterwards either: the key 2 now holds the
record of the joiner admitted elsewhere. With two rejections the loop itself
faults on the missing record of id 3, and when no other peer connects the
second round waits for peer 2 for ever. With no rejection the joiner is
admitted under the initial candidate. -/
theorem C8_retry_never_assigns_id :
    (cluster_t.propose_to_ourselves (two_nodes PeerState.connected) joiner_addr).2
      = { ip := 7, port := 8, id := 2 } ∧
    StdMap.find (cluster_t.propose_to_ourselves (two_nodes PeerState.connected) joiner_addr).1.peers 2
      = some (some { address := 7, port := 8, id := 2, proposer := some 0,
                     state := PeerState.join_proposed, conn := none, srvcs := [] }) ∧
    cluster_t.propose_loop other_joiner_connects [false, true]
        { c := (cluster_t.propose_to_ourselves (two_nodes PeerState.connected) joiner_addr).1,
          t := 0, log := [] }
        (cluster_t.propose_to_ourselves (two_nodes PeerState.connected) joiner_addr).2 []
      = .ok after_retry ∧
    after_retry.2.2
      = [[Event.peer_write 1 (Wire.Join_propose { ip := 7, port := 8, id := 2 })],
         [Event.peer_write 1 (Wire.Join_propose { ip := 7, port := 8, id := 3 }),
          Event.peer_write 2 (Wire.Join_propose { ip := 7, port := 8, id := 3 })]] ∧
    after_retry.2.1 = { ip := 7, port := 8, id := 3 } ∧
    (StdMap.find after_retry.1.c.peers 2).map
        (Option.map (fun p => (p.address, p.port, p.proposer, p.state)))
      = some (some (10, 20, none, PeerState.connected)) ∧
    3 ∉ StdMap.keys after_retry.1.c.peers ∧
    cluster_t.handle_unknown_peer other_joiner_connects [false, true] open_conn [[1, 2], [3]]
      (two_nodes PeerState.connected) joiner_addr = .error Fault.null_deref ∧
    cluster_t.handle_unknown_peer other_joiner_connects [false, false, true] open_conn [[1, 2], [3]]
      (two_nodes PeerState.connected) joiner_addr = .error Fault.null_deref ∧
    cluster_t.propose_loop other_joiner_connects [false, false, true]
        { c := (cluster_t.propose_to_ourselves (two_nodes PeerState.connected) joiner_addr).1,
          t := 0, log := [] }
        (cluster_t.propose_to_ourselves (two_nodes PeerState.connected) joiner_addr).2 []
      = .error Fault.null_deref ∧
    cluster_t.handle_unknown_peer idle [false, true] open_conn [[1, 2], [3]]
      (two_nodes PeerState.connected) joiner_addr = .error Fault.blocked ∧
    cluster_t.handle_unknown_peer idle [true] open_conn [[1, 2], [3]]
      (two_nodes PeerState.connected) joiner_addr = .ok plain_admission ∧
    plain_admission.addr = { ip := 7, port := 8, id := 2 } ∧
    (StdMap.find plain_admission.task.c.peers 2).map
        (Option.map (fun p => (p.address, p.port, p.proposer, p.state)))
      = some (some (7, 8, some 0, PeerState.join_official)) := by
  refine ⟨by decide, by decide, by decide, by decide, by decide, by decide, by decide, by decide, by decide, by decide, by decide, by decide, by decide, by decide⟩

/-- C9, the code at the failing input (scenario S6): a node with the ids 0
and 1 proposes id 2 for the joiner, is rejected, and has its second proposal,
id 3, accepted. The loop ends with candidate 3, no record is stored under 3,
and the transition to `join_official` dereferences the null pointer that the
subscript creates: `handle_unknown_peer` faults and no welcome is written. -/
theorem C9_no_record_under_retried_id :
    cluster_t.propose_loop other_joiner_connects [false, true]
        { c := (cluster_t.propose_to_ourselves (two_nodes PeerState.connected) joiner_addr).1,
          t := 0, log := [] }
        (cluster_t.propose_to_ourselves (two_nodes PeerState.connected) joiner_addr).2 []
      = .ok after_retry ∧
    after_retry.2.1.id = 3 ∧
    StdMap.keys after_retry.1.c.peers = [0, 1, 2] ∧
    StdMap.find after_retry.1.c.peers 3 = none ∧
    cluster_t.make_official other_joiner_connects after_retry.1 after_retry.2.1
      = .error Fault.null_deref ∧
    cluster_t.handle_unknown_peer other_joiner_connects [false, true] open_conn [[1, 2], [3]]
      (two_nodes PeerState.connected) joiner_addr = .error Fault.null_deref := by
  decide

/-- C10: when `handle_unknown_peer` returns, it has written exactly one
`Join_welcome`; it carries the assigned address and one entry per id
`0 .. k-1`, in increasing order, `k` being the assigned id; the entry of id
`i` carries the ip and port of the record stored under `i` and the id `i`,
with state `KILLED` exactly when that record is in state `killed` and `LIVE`
otherwise. -/
theorem C10_welcome_lists_every_earlier_peer (env : Interference) (responses : List Bool)
    (conn : tcp_conn_t) (intro : List (List Nat)) (c : cluster_t) (initial : addrinfo)
    (a : Admission)
    (h : cluster_t.handle_unknown_peer env responses conn intro c initial = .ok a) :
    ∃ ps, welcomes_sent a.task.log = [(a.addr, ps)] ∧
      ps.map (fun e => e.addr.id) = loop_ids a.addr.id ∧
      ∀ e ∈ ps, ∃ p, StdMap.find a.task.c.peers e.addr.id = some (some p) ∧
        e.addr.ip = p.address ∧ e.addr.port = p.port ∧
        (e.state = peer_state.KILLED ↔ p.state = PeerState.killed) ∧
        (e.state = peer_state.LIVE ↔ p.state ≠ PeerState.killed) := by
  unfold cluster_t.handle_unknown_peer at h
  dsimp only at h
  split at h
  · exact Except.noConfusion h
  · rename_i s1 addr rounds h1
    split at h
    · exact Except.noConfusion h
    · rename_i s2 h2
      split at h
      · exact Except.noConfusion h
      · rename_i s3 h3
        cases Except.ok.inj h
        obtain ⟨hc, ps, hlog, hids, hall⟩ := welcome_phase_ok env conn intro s2 s3 addr h3
        have hpw : ∀ e ∈ s2.log, ∃ i w, e = Event.peer_write i w := by
          intro e he
          rcases (make_official_ok env s1 s2 addr h2).1 e he with h4 | h4
          · rcases propose_loop_log env responses _ _ _ _ h1 e h4 with h5 | h5
            · simp at h5
            · exact h5
          · exact h4
        refine ⟨ps, ?_, hids, ?_⟩
        · rw [hlog, welcomes_sent_peer_writes _ hpw]; rfl
        · intro e he
          obtain ⟨p, hp, h5, h6, h7⟩ := hall e he
          refine ⟨p, by rw [hc]; exact hp, h5, h6, ?_, ?_⟩
          · rw [h7]; split_ifs with hk <;> simp [hk]
          · rw [h7]; split_ifs with hk <;> simp [hk]

/-- C10 on a founder with one connected peer: the joiner is assigned id 2 and
the welcome lists the peers 0 and 1, both `LIVE`. -/
theorem C10_welcome_lists_every_earlier_peer_witness :
    cluster_t.handle_unknown_peer idle [true] open_conn [[1, 2], [3]]
      (two_nodes PeerState.connected) joiner_addr = .ok plain_admission ∧
    plain_admission.addr = { ip := 7, port := 8, id := 2 } ∧
    welcomes_sent plain_admission.task.log
      = [({ ip := 7, port := 8, id := 2 },
          [{ addr := { ip := 1, port := 2, id := 0 }, state := peer_state.LIVE },
           { addr := { ip := 10, port := 20, id := 1 }, state := peer_state.LIVE }])] ∧
    ∃ ps, welcomes_sent plain_admission.task.log = [(plain_admission.addr, ps)] ∧
      ps.map (fun e => e.addr.id) = loop_ids plain_admission.addr.id :=
  ⟨by decide, by decide, by decide,
   (C10_welcome_lists_every_earlier_peer idle [true] open_conn [[1, 2], [3]]
      (two_nodes PeerState.connected) joiner_addr plain_admission (by decide)).imp
      (fun _ hps => ⟨hps.1, hps.2.1⟩)⟩

/-! ## Known peers, eviction and services -/

theorem find_set_peer (c : cluster_t) (i k : Int) (p : cluster_peer_t) :
    StdMap.find (cluster_t.set_peer c i p).peers k
      = if k = i then some (some p) else StdMap.find c.peers k := by
  simp only [cluster_t.set_peer]
  by_cases h : k = i
  · subst h; simp [StdMap.find_insert_self]
  · simp [h, StdMap.find_insert_ne _ _ _ _ h]

theorem state_at_set_peer (c : cluster_t) (i k : Int) (p : cluster_peer_t) :
    state_at (cluster_t.set_peer c i p) k = if k = i then some p.state else state_at c k := by
  unfold state_at
  rw [find_set_peer]
  by_cases h : k = i <;> simp [h]

theorem srvcs_at_set_peer (c : cluster_t) (i k : Int) (p : cluster_peer_t) :
    srvcs_at (cluster_t.set_peer c i p) k = if k = i then some p.srvcs else srvcs_at c k := by
  unfold srvcs_at
  rw [find_set_peer]
  by_cases h : k = i <;> simp [h]

theorem mem_keys_set_peer_iff (c : cluster_t) (i k : Int) (p : cluster_peer_t) :
    k ∈ StdMap.keys (cluster_t.set_peer c i p).peers ↔ k = i ∨ k ∈ StdMap.keys c.peers := by
  simp only [cluster_t.set_peer]
  exact StdMap.mem_keys_insert _ _ _ _

theorem mem_keys_of_find {V : Type} (m : List (Int × V)) (k : Int) (v : V)
    (h : StdMap.find m k = some v) : k ∈ StdMap.keys m := by
  by_contra hn
  rw [← StdMap.find_eq_none_iff] at hn
  rw [hn] at h
  exact Option.noConfusion h

theorem peer_at_of_find (c : cluster_t) (i : Int) (p : cluster_peer_t)
    (h : StdMap.find c.peers i = some (some p)) : cluster_t.peer_at c i = .ok p := by
  simp [cluster_t.peer_at, StdMap.index, h]

theorem state_at_of_find (c : cluster_t) (i : Int) (p : cluster_peer_t)
    (h : StdMap.find c.peers i = some (some p)) : state_at c i = some p.state := by
  simp [state_at, h]

/-- C12, the code at the failing input: a founder (the only id is 0) is sent
`Join_initial` with id 5. The id is unknown, so the test of line 226 is false
and the connection is not rejected: line 230 subscripts the map, which
stores a null pointer under 5, and dereferences it. -/
theorem C12_unknown_id_not_rejected :
    StdMap.find (founder 1 2).peers 5 = none ∧
    cluster_t.not_official (founder 1 2) 5 = .ok false ∧
    cluster_t.handle_known_peer (founder 1 2) open_conn { ip := 10, port := 20, id := 5 }
      = .error Fault.null_deref ∧
    cluster_t.on_tcp_listener_accept idle [] open_conn [] (founder 1 2)
        { ip := 10, port := 20, id := 5 }
      = cluster_t.Accepted.known (.error Fault.null_deref) ∧
    (StdMap.index (founder 1 2).peers none 5).1 = (founder 1 2).peers ++ [(5, none)] := by
  decide

/-- C13: `kill_peer` on an id whose record is not in state `connected`
returns at once: the cluster is unchanged, so is the state of every record,
and nothing is written. -/
theorem C13_kill_peer_only_acts_on_connected (env : Interference) (response : Option Bool)
    (s : Coro) (id : Int) (p : cluster_peer_t)
    (hp : StdMap.find s.c.peers id = some (some p)) (hstate : p.state ≠ PeerState.connected) :
    cluster_t.kill_peer env response s id = .ok s := by
  simp [cluster_t.kill_peer, hp, peer_at_of_find _ _ _ hp, hstate]

/-- C13 on a killed peer: after peer 1 has been killed, a second `kill_peer 1`
changes nothing and writes nothing. -/
theorem C13_kill_peer_only_acts_on_connected_witness :
    cluster_t.kill_peer idle (some true) { c := three_nodes, t := 0, log := [] } 1 = .ok after_kill ∧
    state_at after_kill.c 1 = some PeerState.killed ∧
    cluster_t.kill_peer idle (some true) after_kill 1 = .ok after_kill :=
  ⟨by decide, by decide,
   C13_kill_peer_only_acts_on_connected idle (some true) after_kill 1
     (remote_peer 1 PeerState.killed) (by decide) (by decide)⟩

theorem kill_propose_to_ok (srvc : Srvc) (addr : addrinfo) (s s1 : Coro) (k : Int)
    (h : cluster_t.kill_propose_to srvc addr s k = .ok s1) :
    s1.t = s.t ∧ (∀ j, state_at s1.c j = state_at s.c j) ∧
    (∀ j, j ∈ StdMap.keys s1.c.peers ↔ j ∈ StdMap.keys s.c.peers) ∧
    s1.log = s.log ++ (if state_at s.c k = some PeerState.connected
      then [Event.peer_write k (Wire.Kill_propose addr)] else []) := by
  unfold cluster_t.kill_propose_to at h
  split at h
  · exact Except.noConfusion h
  · rename_i p hp
    have hf := peer_at_ok _ _ _ hp
    have hst := state_at_of_find _ _ _ hf
    split_ifs at h with hc
    · split at h
      · exact Except.noConfusion h
      · rename_i ev hev
        have hev1 := write_ok _ _ _ _ hev
        cases Except.ok.inj h
        refine ⟨rfl, ?_, ?_, ?_⟩
        · intro j
          rw [state_at_set_peer]
          by_cases hj : j = k
          · subst hj; simp [hst, cluster_peer_t.add_srvc]
          · simp [hj]
        · intro j
          rw [mem_keys_set_peer_iff]
          constructor
          · rintro (rfl | hj)
            · exact mem_keys_of_find _ _ _ hf
            · exact hj
          · exact Or.inr
        · simp [hst, hc, hev1]
    · cases Except.ok.inj h
      refine ⟨rfl, fun _ => rfl, fun _ => Iff.rfl, ?_⟩
      simp [hst, hc]

theorem for_each_kill_propose_ok (srvc : Srvc) (addr : addrinfo) (ks : List Int) :
    ∀ (s s1 : Coro), for_each (cluster_t.kill_propose_to srvc addr) ks s = .ok s1 →
    s1.t = s.t ∧ (∀ j, state_at s1.c j = state_at s.c j) ∧
    (∀ j, j ∈ StdMap.keys s1.c.peers ↔ j ∈ StdMap.keys s.c.peers) ∧
    s1.log = s.log ++ (ks.filter (fun j => decide (state_at s.c j = some PeerState.connected))).map
      (fun j => Event.peer_write j (Wire.Kill_propose addr)) := by
  induction ks with
  | nil =>
    intro s s1 h
    cases Except.ok.inj h
    simp
  | cons k rest ih =>
    intro s s1 h
    unfold for_each at h
    split at h
    · exact Except.noConfusion h
    · rename_i s2 h2
      obtain ⟨a1, a2, a3, a4⟩ := kill_propose_to_ok srvc addr s s2 k h2
      obtain ⟨b1, b2, b3, b4⟩ := ih s2 s1 h
      refine ⟨b1.trans a1, fun j => (b2 j).trans (a2 j), fun j => (b3 j).trans (a3 j), ?_⟩
      rw [b4, a4]
      have hfun : (fun j => decide (state_at s2.c j = some PeerState.connected))
          = (fun j => decide (state_at s.c j = some PeerState.connected)) := by
        funext j; rw [a2 j]
      rw [hfun]
      by_cases hc : state_at s.c k = some PeerState.connected
      · simp [hc, List.filter_cons]
      · simp [hc, List.filter_cons]

theorem kill_mk_official_to_ok (addr : addrinfo) (s s1 : Coro) (k : Int)
    (h : cluster_t.kill_mk_official_to addr s k = .ok s1) :
    s1.t = s.t ∧ s1.c = s.c ∧
    s1.log = s.log ++ (if state_at s.c k = some PeerState.connected
      then [Event.peer_write k (Wire.Kill_mk_official addr)] else []) := by
  unfold cluster_t.kill_mk_official_to at h
  split at h
  · exact Except.noConfusion h
  · rename_i p hp
    have hst := state_at_of_find _ _ _ (peer_at_ok _ _ _ hp)
    split_ifs at h with hc
    · split at h
      · exact Except.noConfusion h
      · rename_i ev hev
        have hev1 := write_ok _ _ _ _ hev
        cases Except.ok.inj h
        refine ⟨rfl, rfl, ?_⟩
        simp [hst, hc, hev1]
    · cases Except.ok.inj h
      refine ⟨rfl, rfl, ?_⟩
      simp [hst, hc]

theorem for_each_kill_mk_official_ok (addr : addrinfo) (ks : List Int) :
    ∀ (s s1 : Coro), for_each (cluster_t.kill_mk_official_to addr) ks s = .ok s1 →
    s1.t = s.t ∧ s1.c = s.c ∧
    s1.log = s.log ++ (ks.filter (fun j => decide (state_at s.c j = some PeerState.connected))).map
      (fun j => Event.peer_write j (Wire.Kill_mk_official addr)) := by
  induction ks with
  | nil =>
    intro s s1 h
    cases Except.ok.inj h
    simp
  | cons k rest ih =>
    intro s s1 h
    unfold for_each at h
    split at h
    · exact Except.noConfusion h
    · rename_i s2 h2
      obtain ⟨a1, a2, a4⟩ := kill_mk_official_to_ok addr s s2 k h2
      obtain ⟨b1, b2, b4⟩ := ih s2 s1 h
      refine ⟨b1.trans a1, b2.trans a2, ?_⟩
      rw [b4, a4, a2]
      by_cases hc : state_at s.c k = some PeerState.connected
      · simp [hc, List.filter_cons]
      · simp [hc, List.filter_cons]

theorem mem_connected_ids (c : cluster_t) (k : Int) :
    k ∈ connected_ids c ↔ k ∈ StdMap.keys c.peers ∧ state_at c k = some PeerState.connected := by
  simp [connected_ids, List.mem_filter]

theorem kill_propose_phase_ok (s s1 : Coro) (id : Int) (p : cluster_peer_t)
    (hp : StdMap.find s.c.peers id = some (some p))
    (h : cluster_t.kill_propose_phase s id p = .ok s1) :
    s1.t = s.t ∧
    (∀ k, k ∈ StdMap.keys s1.c.peers ↔ k ∈ StdMap.keys s.c.peers) ∧
    (∀ k, k ≠ id → state_at s1.c k = state_at s.c k) ∧
    state_at s1.c id = some PeerState.kill_proposed ∧
    s1.log = s.log ++
      (connected_ids (cluster_t.set_peer s.c id { p with state := PeerState.kill_proposed })).map
        (fun k => Event.peer_write k (Wire.Kill_propose p.fill_in_addr)) := by
  unfold cluster_t.kill_propose_phase at h
  obtain ⟨a1, a2, a3, a4⟩ := for_each_kill_propose_ok _ _ _ _ _ h
  refine ⟨a1, ?_, ?_, ?_, ?_⟩
  · intro k
    rw [a3 k, mem_keys_set_peer_iff]
    constructor
    · rintro (rfl | hk)
      · exact mem_keys_of_find _ _ _ hp
      · exact hk
    · exact Or.inr
  · intro k hk
    rw [a2 k, state_at_set_peer]
    simp [hk]
  · rw [a2 id, state_at_set_peer]
    simp
  · rw [a4]
    rfl

theorem kill_official_phase_ok (s s1 : Coro) (id : Int) (addr : addrinfo)
    (h : cluster_t.kill_official_phase s id addr = .ok s1) :
    (∀ k, k ∈ StdMap.keys s1.c.peers ↔ k ∈ StdMap.keys s.c.peers) ∧
    (∀ k, k ≠ id → state_at s1.c k = state_at s.c k) ∧
    state_at s1.c id = some PeerState.killed ∧
    s1.log = s.log ++
      (connected_ids s1.c).map (fun k => Event.peer_write k (Wire.Kill_mk_official addr)) := by
  unfold cluster_t.kill_official_phase at h
  split at h
  · exact Except.noConfusion h
  · rename_i p hp
    have hf := peer_at_ok _ _ _ hp
    obtain ⟨_, a2, a4⟩ := for_each_kill_mk_official_ok _ _ _ _ h
    refine ⟨?_, ?_, ?_, ?_⟩
    · intro k
      rw [a2, mem_keys_set_peer_iff]
      constructor
      · rintro (rfl | hk)
        · exact mem_keys_of_find _ _ _ hf
        · exact hk
      · exact Or.inr
    · intro k hk
      rw [a2, state_at_set_peer]
      simp [hk]
    · rw [a2, state_at_set_peer]
      simp [cluster_peer_t.set_state]
    · rw [a4, a2]
      rfl


theorem writable_set_peer (c : cluster_t) (i : Int) (p : cluster_peer_t) (hw : Writable c)
    (hp : p.state = PeerState.connected → p.conn = some { write_closed := false }) :
    Writable (cluster_t.set_peer c i p) := by
  intro k hk
  rw [find_set_peer]
  by_cases hki : k = i
  · exact ⟨p, by simp [hki], hp⟩
  · rcases (mem_keys_set_peer_iff c i k p).1 hk with h | h
    · exact absurd h hki
    · simpa [hki] using hw k h

theorem for_each_kill_propose_total (srvc : Srvc) (addr : addrinfo) (ks : List Int) :
    ∀ (s : Coro), Writable s.c → (∀ k ∈ ks, k ∈ StdMap.keys s.c.peers) →
    ∃ s1, for_each (cluster_t.kill_propose_to srvc addr) ks s = .ok s1 ∧ Writable s1.c := by
  induction ks with
  | nil => intro s hw _; exact ⟨s, rfl, hw⟩
  | cons k rest ih =>
    intro s hw hks
    obtain ⟨q, hq, hconn⟩ := hw k (hks k (List.mem_cons_self _ _))
    have hstep : ∃ s2, cluster_t.kill_propose_to srvc addr s k = .ok s2 ∧ Writable s2.c ∧
        ∀ j, j ∈ StdMap.keys s.c.peers → j ∈ StdMap.keys s2.c.peers := by
      by_cases hc : q.state = PeerState.connected
      · refine ⟨{ s with c := cluster_t.set_peer s.c k (q.add_srvc srvc),
                         log := s.log ++ [Event.peer_write k (Wire.Kill_propose addr)] }, ?_, ?_, ?_⟩
        · simp [cluster_t.kill_propose_to, peer_at_of_find _ _ _ hq, hc, cluster_peer_t.write,
            cluster_peer_t.add_srvc, hconn hc]
        · exact writable_set_peer _ _ _ hw (by simpa [cluster_peer_t.add_srvc] using hconn)
        · intro j hj
          exact mem_keys_set_peer _ _ _ _ hj
      · exact ⟨s, by simp [cluster_t.kill_propose_to, peer_at_of_find _ _ _ hq, hc], hw,
          fun _ hj => hj⟩
    obtain ⟨s2, h2, hw2, hk2⟩ := hstep
    obtain ⟨s1, h1, hw1⟩ := ih s2 hw2
      (fun j hj => hk2 j (hks j (List.mem_cons_of_mem _ hj)))
    exact ⟨s1, by simp only [for_each, h2, h1], hw1⟩

theorem for_each_kill_mk_official_total (addr : addrinfo) (ks : List Int) :
    ∀ (s : Coro), Writable s.c → (∀ k ∈ ks, k ∈ StdMap.keys s.c.peers) →
    ∃ s1, for_each (cluster_t.kill_mk_official_to addr) ks s = .ok s1 := by
  induction ks with
  | nil => intro s _ _; exact ⟨s, rfl⟩
  | cons k rest ih =>
    intro s hw hks
    obtain ⟨q, hq, hconn⟩ := hw k (hks k (List.mem_cons_self _ _))
    have hstep : ∃ s2, cluster_t.kill_mk_official_to addr s k = .ok s2 ∧ s2.c = s.c := by
      by_cases hc : q.state = PeerState.connected
      · exact ⟨{ s with log := s.log ++ [Event.peer_write k (Wire.Kill_mk_official addr)] },
          by simp [cluster_t.kill_mk_official_to, peer_at_of_find _ _ _ hq, hc,
            cluster_peer_t.write, hconn hc], rfl⟩
      · exact ⟨s, by simp [cluster_t.kill_mk_official_to, peer_at_of_find _ _ _ hq, hc], rfl⟩
    obtain ⟨s2, h2, hc2⟩ := hstep
    obtain ⟨s1, h1⟩ := ih s2 (hc2 ▸ hw)
      (fun j hj => hc2 ▸ hks j (List.mem_cons_of_mem _ hj))
    exact ⟨s1, by simp only [for_each, h2, h1]⟩

theorem kill_peer_returns (s : Coro) (id : Int) (p : cluster_peer_t)
    (hp : StdMap.find s.c.peers id = some (some p)) (hconn : p.state = PeerState.connected)
    (hw : Writable s.c) : ∃ s2, cluster_t.kill_peer idle (some true) s id = .ok s2 := by
  have hw1 : Writable (cluster_t.set_peer s.c id { p with state := PeerState.kill_proposed }) :=
    writable_set_peer _ _ _ hw (fun h => PeerState.noConfusion h)
  obtain ⟨s1, h1, hw2⟩ := for_each_kill_propose_total
    (.kill_respond_srvc p.fill_in_addr) p.fill_in_addr
    (StdMap.keys (cluster_t.set_peer s.c id { p with state := PeerState.kill_proposed }).peers)
    { s with c := cluster_t.set_peer s.c id { p with state := PeerState.kill_proposed } }
    hw1 (fun _ hk => hk)
  have hkey : id ∈ StdMap.keys s1.c.peers := by
    rw [(for_each_kill_propose_ok _ _ _ _ _ h1).2.2.1 id, mem_keys_set_peer_iff]
    exact Or.inl rfl
  have hw2' : Writable (Coro.suspend idle s1).c := hw2
  obtain ⟨q, hq, _⟩ := hw2' id hkey
  have hw3 : Writable (cluster_t.set_peer (Coro.suspend idle s1).c id
      (q.set_state PeerState.killed)) :=
    writable_set_peer _ _ _ hw2' (fun h => PeerState.noConfusion h)
  obtain ⟨s2, h2⟩ := for_each_kill_mk_official_total p.fill_in_addr
    (StdMap.keys (cluster_t.set_peer (Coro.suspend idle s1).c id
      (q.set_state PeerState.killed)).peers)
    { Coro.suspend idle s1 with
      c := cluster_t.set_peer (Coro.suspend idle s1).c id (q.set_state PeerState.killed) }
    hw3 (fun _ hk => hk)
  refine ⟨s2, ?_⟩
  have h1' : cluster_t.kill_propose_phase s id p = .ok s1 := h1
  simp only [cluster_t.kill_peer, hp, peer_at_of_find _ _ _ hp, hconn, ne_eq,
    not_true_eq_false, if_false, reduceCtorEq, h1', cluster_t.kill_official_phase,
    peer_at_of_find _ _ _ hq]
  exact h2

/-- C14: when `kill_peer id` on a connected peer gets a positive response and
returns, the record of `id` is still in the map, in state `killed`. Up to
the wait the task itself keeps the key set and the state of every other
record, and so it does after the wait (`env s1.t s1.c` being the cluster
when the response arrives). It has written `Kill_propose` to exactly the
peers connected once `id` was marked `kill_proposed` and then
`Kill_mk_official` to exactly the peers connected once `id` was marked
`killed`, both with the address of `id`; neither list holds `id`, nor the
local node when its record is in state `us`. With no interference it does
return when every entry of the map holds a record and every connected record
has an open connection. -/
theorem C14_kill_peer_leaves_tombstone (env : Interference) (s : Coro) (id : Int)
    (p : cluster_peer_t) (hp : StdMap.find s.c.peers id = some (some p))
    (hconn : p.state = PeerState.connected) :
    (∀ s2, cluster_t.kill_peer env (some true) s id = .ok s2 →
      id ∈ StdMap.keys s2.c.peers ∧ state_at s2.c id = some PeerState.killed ∧
      ∃ s1, cluster_t.kill_propose_phase s id p = .ok s1 ∧
        (∀ k, k ∈ StdMap.keys s1.c.peers ↔ k ∈ StdMap.keys s.c.peers) ∧
        (∀ k, k ≠ id → state_at s1.c k = state_at s.c k) ∧
        (∀ k, k ∈ StdMap.keys s2.c.peers ↔ k ∈ StdMap.keys (env s1.t s1.c).peers) ∧
        (∀ k, k ≠ id → state_at s2.c k = state_at (env s1.t s1.c) k) ∧
        s2.log = s.log ++
          (connected_ids
            (cluster_t.set_peer s.c id { p with state := PeerState.kill_proposed })).map
            (fun k => Event.peer_write k (Wire.Kill_propose p.fill_in_addr)) ++
          (connected_ids s2.c).map
            (fun k => Event.peer_write k (Wire.Kill_mk_official p.fill_in_addr)) ∧
        id ∉ connected_ids
          (cluster_t.set_peer s.c id { p with state := PeerState.kill_proposed }) ∧
        id ∉ connected_ids s2.c ∧
        (state_at s.c s.c.us = some PeerState.us →
          s.c.us ∉ connected_ids
            (cluster_t.set_peer s.c id { p with state := PeerState.kill_proposed })) ∧
        (state_at s2.c s2.c.us = some PeerState.us → s2.c.us ∉ connected_ids s2.c)) ∧
    (Writable s.c → ∃ s2, cluster_t.kill_peer idle (some true) s id = .ok s2) := by
  refine ⟨?_, kill_peer_returns s id p hp hconn⟩
  intro s2 h
  unfold cluster_t.kill_peer at h
  simp only [hp, peer_at_of_find _ _ _ hp, hconn, ne_eq, not_true_eq_false, if_false,
    reduceCtorEq] at h
  split at h
  · exact Except.noConfusion h
  · rename_i s1 h1
    obtain ⟨a1, a2, a3, _, a5⟩ := kill_propose_phase_ok s s1 id p hp h1
    obtain ⟨b1, b2, b3, b4⟩ := kill_official_phase_ok _ _ _ _ h
    have hkey : id ∈ StdMap.keys s2.c.peers := by
      by_contra hn
      rw [← StdMap.find_eq_none_iff] at hn
      simp [state_at, hn] at b3
    refine ⟨hkey, b3, s1, h1, a2, a3, ?_, ?_, ?_, ?_, ?_, ?_, ?_⟩
    · intro k; exact b1 k
    · intro k hk; exact b2 k hk
    · rw [b4]
      simp only [Coro.suspend, a5, List.append_assoc]
    · rw [mem_connected_ids, state_at_set_peer]
      simp
    · rw [mem_connected_ids, b3]
      simp
    · intro hus
      rw [mem_connected_ids, state_at_set_peer]
      by_cases hk : s.c.us = id
      · simp [hk]
      · simp [hk, hus]
    · intro hus
      rw [mem_connected_ids, hus]
      simp

/-- C14 on a founder with two connected peers: peer 1 is killed, peer 2 gets
`Kill_propose` and then `Kill_mk_official` with the address of peer 1, the
keys stay 0, 1, 2 and the other states are as before. -/
theorem C14_kill_peer_leaves_tombstone_witness :
    cluster_t.kill_peer idle (some true) { c := three_nodes, t := 0, log := [] } 1 = .ok after_kill ∧
    after_kill.log = [Event.peer_write 2 (Wire.Kill_propose { ip := 10, port := 20, id := 1 }),
                      Event.peer_write 2 (Wire.Kill_mk_official { ip := 10, port := 20, id := 1 })] ∧
    StdMap.keys after_kill.c.peers = [0, 1, 2] ∧
    state_at after_kill.c 0 = some PeerState.us ∧
    state_at after_kill.c 2 = some PeerState.connected ∧
    state_at after_kill.c 1 = some PeerState.killed :=
  ⟨by decide, by decide, by decide, by decide, by decide,
   ((C14_kill_peer_leaves_tombstone idle { c := three_nodes, t := 0, log := [] } 1
      (remote_peer 1 PeerState.connected) (by decide) (by decide)).1 after_kill (by decide)).2.1⟩

theorem foldl_add_srvc (l : List Srvc) : ∀ (p : cluster_peer_t),
    l.foldl cluster_peer_t.add_srvc p = { p with srvcs := p.srvcs ++ l } := by
  induction l with
  | nil => intro p; simp
  | cons a t ih =>
    intro p
    simp only [List.foldl_cons, ih, cluster_peer_t.add_srvc, List.append_assoc, List.singleton_append]

theorem attach_srvcs_of_find (c : cluster_t) (key : Int) (p : cluster_peer_t)
    (hp : StdMap.find c.peers key = some (some p)) :
    cluster_t.attach_srvcs c key
      = .ok (cluster_t.set_peer c key { p with srvcs := p.srvcs ++ main_srvcs ++ c.added_srvcs }) := by
  simp only [cluster_t.attach_srvcs, peer_at_of_find _ _ _ hp, foldl_add_srvc, List.append_assoc]

theorem add_srvc_all_ok (srvc : Srvc) (m : List (Int × Option cluster_peer_t)) :
    ∀ m1, cluster_t.add_srvc_all srvc m = .ok m1 →
    StdMap.keys m1 = StdMap.keys m ∧
    (∀ kv ∈ m1, ∃ p, kv.2 = some p ∧ srvc ∈ p.srvcs) ∧
    (∀ k p, StdMap.find m k = some (some p) →
      StdMap.find m1 k = some (some (p.add_srvc srvc))) := by
  induction m with
  | nil =>
    intro m1 h
    cases Except.ok.inj h
    simp [StdMap.keys, StdMap.find]
  | cons hd t ih =>
    intro m1 h
    obtain ⟨k, v⟩ := hd
    cases v with
    | none => exact Except.noConfusion h
    | some q =>
      simp only [cluster_t.add_srvc_all] at h
      split at h
      · exact Except.noConfusion h
      · rename_i t1 ht
        obtain ⟨a1, a2, a3⟩ := ih t1 ht
        cases Except.ok.inj h
        refine ⟨?_, ?_, ?_⟩
        · simp only [StdMap.keys, List.map_cons] at a1 ⊢
          rw [a1]
        · intro kv hkv
          rcases List.mem_cons.1 hkv with rfl | hkv
          · exact ⟨_, rfl, by simp [cluster_peer_t.add_srvc]⟩
          · exact a2 kv hkv
        · intro j p hj
          by_cases hjk : j = k
          · subst hjk
            simp only [StdMap.find, if_true, Option.some.injEq] at hj ⊢
            rw [hj]
          · simp only [StdMap.find, hjk, if_false] at hj ⊢
            exact a3 j p hj

theorem add_srvc_all_total (srvc : Srvc) (m : List (Int × Option cluster_peer_t))
    (h : ∀ kv ∈ m, kv.2 ≠ none) : ∃ m1, cluster_t.add_srvc_all srvc m = .ok m1 := by
  induction m with
  | nil => exact ⟨[], rfl⟩
  | cons hd t ih =>
    obtain ⟨k, v⟩ := hd
    cases v with
    | none => exact absurd rfl (h (k, none) (List.mem_cons_self _ _))
    | some q =>
      obtain ⟨t1, ht⟩ := ih (fun kv hkv => h kv (List.mem_cons_of_mem _ hkv))
      exact ⟨(k, some (q.add_srvc srvc)) :: t1, by simp only [cluster_t.add_srvc_all, ht]⟩

/-- C15: when `add_srvc s` returns, `s` is the last of the user services
kept for later peers and every record of the membership map has `s` in its
service set (at the end of it). A peer whose `_start_main_srvcs` runs in any
cluster is given, after the services it had, the five main services and then
the user services in the order they were added; after `add_srvc s` these end
with `s`. `add_srvc` returns whenever no entry of the map is null. -/
theorem C15_user_service_on_every_peer (c : cluster_t) (srvc : Srvc) :
    (∀ c1, cluster_t.add_srvc c srvc = .ok c1 →
      c1.added_srvcs = c.added_srvcs ++ [srvc] ∧
      StdMap.keys c1.peers = StdMap.keys c.peers ∧
      (∀ kv ∈ c1.peers, ∃ p, kv.2 = some p ∧ srvc ∈ p.srvcs) ∧
      (∀ k l, srvcs_at c k = some l → srvcs_at c1 k = some (l ++ [srvc])) ∧
      (∀ key p, StdMap.find c1.peers key = some (some p) →
        ∃ c3, cluster_t.attach_srvcs c1 key = .ok c3 ∧
          srvcs_at c3 key = some (p.srvcs ++ main_srvcs ++ (c.added_srvcs ++ [srvc])))) ∧
    ((∀ kv ∈ c.peers, kv.2 ≠ none) → ∃ c1, cluster_t.add_srvc c srvc = .ok c1) ∧
    (∀ (env : Interference) (response : Option Bool) (s : Coro) (key : Int) (p : cluster_peer_t),
      StdMap.find s.c.peers key = some (some p) →
      ∃ c3, cluster_t.attach_srvcs s.c key = .ok c3 ∧
        srvcs_at c3 key = some (p.srvcs ++ main_srvcs ++ s.c.added_srvcs) ∧
        cluster_t._start_main_srvcs env true response s key
          = cluster_t.kill_peer env response (Coro.suspend env { s with c := c3 }) p.id) := by
  refine ⟨?_, ?_, ?_⟩
  · intro c1 h
    unfold cluster_t.add_srvc at h
    split at h
    · exact Except.noConfusion h
    · rename_i m1 hm
      obtain ⟨a1, a2, a3⟩ := add_srvc_all_ok srvc c.peers m1 hm
      cases Except.ok.inj h
      refine ⟨rfl, a1, a2, ?_, ?_⟩
      · intro k l hl
        unfold srvcs_at at hl ⊢
        cases hf : StdMap.find c.peers k with
        | none => simp [hf] at hl
        | some v =>
          cases v with
          | none => simp [hf] at hl
          | some q =>
            simp only [hf, Option.some.injEq] at hl
            simp only [a3 k q hf, cluster_peer_t.add_srvc, hl]
      · intro key p hp
        refine ⟨_, attach_srvcs_of_find _ key p hp, ?_⟩
        rw [srvcs_at_set_peer]
        simp
  · intro hnn
    obtain ⟨m1, hm⟩ := add_srvc_all_total srvc c.peers hnn
    exact ⟨{ c with peers := m1, added_srvcs := c.added_srvcs ++ [srvc] },
      by simp only [cluster_t.add_srvc, hm]⟩
  · intro env response s key p hp
    refine ⟨_, attach_srvcs_of_find _ key p hp, ?_, ?_⟩
    · rw [srvcs_at_set_peer]
      simp
    · simp only [cluster_t._start_main_srvcs, peer_at_of_find _ _ _ hp,
        attach_srvcs_of_find _ key p hp, if_true]

/-! ## The joining constructor -/

theorem join_peer_ok (connect : Int → Except Fault tcp_conn_t) (read_ok : Int → Bool)
    (initial : addrinfo) (r r1 : Spawning) (e : peer)
    (h : cluster_t.join_peer connect read_ok initial r e = .ok r1) :
    StdMap.find r.c.peers e.addr.id = none ∧ r1.c.us = r.c.us ∧
    (∀ x ∈ r.spawned, x ∈ r1.spawned) ∧
    ∃ p, r1.c = cluster_t.set_peer r.c e.addr.id p ∧ p.srvcs = [] ∧
      (e.state = peer_state.LIVE → p.state = PeerState.connected ∧ e.addr.id ∈ r1.spawned) ∧
      (e.state = peer_state.KILLED → p.state = PeerState.killed) := by
  unfold cluster_t.join_peer at h
  by_cases hf1 : StdMap.find r.c.peers e.addr.id = none
  · simp only [hf1, ne_eq, not_true_eq_false, if_false] at h
    cases hs : e.state with
    | LIVE =>
      simp only [hs] at h
      split at h
      · exact Except.noConfusion h
      · split at h
        · exact Except.noConfusion h
        · by_cases hr : read_ok e.addr.id = true
          · simp only [hr, if_true] at h
            cases Except.ok.inj h
            refine ⟨hf1, rfl, ?_, _, rfl, rfl, ?_, ?_⟩
            · intro x hx
              simp [cluster_t.start_main_srvcs, hx]
            · intro _
              exact ⟨rfl, by simp [cluster_t.start_main_srvcs]⟩
            · intro hk
              exact peer_state.noConfusion hk
          · simp only [hr] at h
            exact Except.noConfusion h
    | KILLED =>
      simp only [hs] at h
      cases Except.ok.inj h
      refine ⟨hf1, rfl, fun x hx => hx, _, rfl, rfl, ?_, ?_⟩
      · intro hk
        exact peer_state.noConfusion hk
      · intro _
        rfl
  · simp only [ne_eq, hf1, not_false_eq_true, if_true] at h
    exact Except.noConfusion h

theorem join_peers_ok (connect : Int → Except Fault tcp_conn_t) (read_ok : Int → Bool)
    (initial : addrinfo) (es : List peer) : ∀ (r r1 : Spawning),
    cluster_t.join_peers connect read_ok initial es r = .ok r1 →
    (listed_ids es).Nodup ∧ (∀ e ∈ es, StdMap.find r.c.peers e.addr.id = none) ∧
    r1.c.us = r.c.us ∧ (∀ x ∈ r.spawned, x ∈ r1.spawned) ∧
    (∀ k, k ∈ StdMap.keys r1.c.peers ↔ k ∈ StdMap.keys r.c.peers ∨ k ∈ listed_ids es) ∧
    (∀ k, k ∉ listed_ids es → StdMap.find r1.c.peers k = StdMap.find r.c.peers k) ∧
    (∀ e ∈ es, srvcs_at r1.c e.addr.id = some [] ∧
      (e.state = peer_state.LIVE →
        state_at r1.c e.addr.id = some PeerState.connected ∧ e.addr.id ∈ r1.spawned) ∧
      (e.state = peer_state.KILLED → state_at r1.c e.addr.id = some PeerState.killed)) := by
  induction es with
  | nil =>
    intro r r1 h
    cases Except.ok.inj h
    simp [listed_ids]
  | cons e rest ih =>
    intro r r1 h
    unfold cluster_t.join_peers at h
    split at h
    · exact Except.noConfusion h
    · rename_i r2 h2
      obtain ⟨a1, a2, a3, p, a4, a5, a6, a7⟩ := join_peer_ok connect read_ok initial r r2 e h2
      obtain ⟨b1, b2, b3, b4, b5, b6, b7⟩ := ih r2 r1 h
      have hfresh : ∀ e1 ∈ rest, e1.addr.id ≠ e.addr.id := by
        intro e1 he1 heq
        have := b2 e1 he1
        rw [a4, find_set_peer, heq] at this
        simp at this
      have hnot : e.addr.id ∉ listed_ids rest := by
        intro hm
        obtain ⟨e1, he1, heq⟩ := List.mem_map.1 hm
        exact hfresh e1 he1 heq
      refine ⟨?_, ?_, b3.trans a2, fun x hx => b4 x (a3 x hx), ?_, ?_, ?_⟩
      · simp only [listed_ids, List.map_cons, List.nodup_cons]
        exact ⟨hnot, b1⟩
      · intro e1 he1
        rcases List.mem_cons.1 he1 with rfl | he1
        · exact a1
        · have := b2 e1 he1
          rw [a4, find_set_peer] at this
          simpa [hfresh e1 he1] using this
      · intro k
        rw [b5 k, a4, mem_keys_set_peer_iff]
        simp only [listed_ids, List.map_cons, List.mem_cons]
        tauto
      · intro k hk
        simp only [listed_ids, List.map_cons, List.mem_cons, not_or] at hk
        rw [b6 k hk.2, a4, find_set_peer]
        simp [hk.1]
      · intro e1 he1
        rcases List.mem_cons.1 he1 with rfl | he1
        · have hfind : StdMap.find r1.c.peers e1.addr.id = some (some p) := by
            rw [b6 _ hnot, a4, find_set_peer]
            simp
          refine ⟨by simp [srvcs_at, hfind, a5], ?_, ?_⟩
          · intro hl
            exact ⟨by simp [state_at, hfind, (a6 hl).1], b4 _ (a6 hl).2⟩
          · intro hk
            simp [state_at, hfind, a7 hk]
        · exact b7 e1 he1

theorem join_peer_good (connect : Int → Except Fault tcp_conn_t) (read_ok : Int → Bool)
    (initial : addrinfo) (r : Spawning) (e : peer)
    (hio : e.state = peer_state.LIVE →
      connect e.addr.id = .ok { write_closed := false } ∧ read_ok e.addr.id = true)
    (hf : StdMap.find r.c.peers e.addr.id = none) :
    ∃ r1, cluster_t.join_peer connect read_ok initial r e = .ok r1 := by
  unfold cluster_t.join_peer
  cases hs : e.state with
  | LIVE =>
    obtain ⟨h1, h2⟩ := hio hs
    simp [hf, h1, h2, cluster_peer_t.write]
  | KILLED => simp [hf]

theorem join_peers_good (connect : Int → Except Fault tcp_conn_t) (read_ok : Int → Bool)
    (initial : addrinfo) (es : List peer) : ∀ (r : Spawning),
    GoodIO es connect read_ok →
    ((listed_ids es).Nodup ∧ (∀ e ∈ es, StdMap.find r.c.peers e.addr.id = none) →
      ∃ r1, cluster_t.join_peers connect read_ok initial es r = .ok r1) ∧
    (¬ ((listed_ids es).Nodup ∧ (∀ e ∈ es, StdMap.find r.c.peers e.addr.id = none)) →
      cluster_t.join_peers connect read_ok initial es r
        = .error (Fault.guarantee "Duplicate entry found")) := by
  induction es with
  | nil =>
    intro r _
    exact ⟨fun _ => ⟨r, rfl⟩, fun h => absurd ⟨by simp [listed_ids], by simp⟩ h⟩
  | cons e rest ih =>
    intro r hio
    have hio1 : GoodIO rest connect read_ok := fun e1 he1 => hio e1 (List.mem_cons_of_mem _ he1)
    by_cases hf : StdMap.find r.c.peers e.addr.id = none
    · obtain ⟨r2, h2⟩ := join_peer_good connect read_ok initial r e
        (hio e (List.mem_cons_self _ _)) hf
      obtain ⟨_, _, _, p, a4, _⟩ := join_peer_ok connect read_ok initial r r2 e h2
      have hkey : ∀ e1 : peer, StdMap.find r2.c.peers e1.addr.id = none ↔
          (e1.addr.id ≠ e.addr.id ∧ StdMap.find r.c.peers e1.addr.id = none) := by
        intro e1
        rw [a4, find_set_peer]
        by_cases hk : e1.addr.id = e.addr.id <;> simp [hk]
      have hequiv : ((listed_ids (e :: rest)).Nodup ∧
            (∀ e1 ∈ e :: rest, StdMap.find r.c.peers e1.addr.id = none)) ↔
          ((listed_ids rest).Nodup ∧ (∀ e1 ∈ rest, StdMap.find r2.c.peers e1.addr.id = none)) := by
        simp only [listed_ids, List.map_cons, List.nodup_cons, List.mem_map, List.mem_cons,
          forall_eq_or_imp, hkey]
        constructor
        · rintro ⟨⟨h1, h3⟩, _, h5⟩
          exact ⟨h3, fun e1 he1 => ⟨fun heq => h1 ⟨e1, he1, heq⟩, h5 e1 he1⟩⟩
        · rintro ⟨h3, h5⟩
          refine ⟨⟨?_, h3⟩, hf, fun e1 he1 => (h5 e1 he1).2⟩
          rintro ⟨e1, he1, heq⟩
          exact (h5 e1 he1).1 heq
      obtain ⟨c1, c2⟩ := ih r2 hio1
      constructor
      · intro hgood
        obtain ⟨r1, h1⟩ := c1 (hequiv.1 hgood)
        exact ⟨r1, by simp only [cluster_t.join_peers, h2, h1]⟩
      · intro hbad
        have := c2 (fun hg => hbad (hequiv.2 hg))
        simp only [cluster_t.join_peers, h2, this]
    · constructor
      · intro hgood
        exact absurd (hgood.2 e (List.mem_cons_self _ _)) hf
      · intro _
        simp [cluster_t.join_peers, cluster_t.join_peer, hf]

theorem find_singleton {V : Type} (k i : Int) (v : V) :
    StdMap.find (StdMap.insert [] k v) i = if i = k then some v else none := by
  simp [StdMap.insert, StdMap.find]

theorem mem_keys_singleton {V : Type} (k i : Int) (v : V) :
    i ∈ StdMap.keys (StdMap.insert [] k v) ↔ i = k := by
  simp [StdMap.insert, StdMap.keys]

theorem fresh_iff_not_listed {V : Type} (k : Int) (v : V) (ps : List peer) :
    (∀ e ∈ ps, StdMap.find (StdMap.insert [] k v) e.addr.id = none) ↔ k ∉ listed_ids ps := by
  simp only [find_singleton, listed_ids, List.mem_map, not_exists, not_and]
  constructor
  · intro h e he heq
    have := h e he
    simp [heq] at this
  · intro h e he
    have := h e he
    simp [this]

/-- C11: with the contact reachable, every connection opening and every echo
arriving, the joining constructor returns on every welcome whose ids are
pairwise distinct and different from the assigned id `k`, and stops at the
guarantee `Duplicate entry found` on every other welcome. Whenever it
returns, the welcome was such a one, `us` is `k`, the record of `k` is in
state `us`, the keys of the membership map are `k` and the listed ids, every
peer listed `LIVE` is `connected` and every peer listed `KILLED` is
`killed`. -/
theorem C11_joiner_installs_welcome (ip port : Nat) (contact_conn : tcp_conn_t)
    (welcome_addr : addrinfo) (welcome_peers : List peer)
    (connect : Int → Except Fault tcp_conn_t) (read_ok : Int → Bool)
    (hcontact : contact_conn.write_closed = false)
    (hio : GoodIO welcome_peers connect read_ok) :
    (Distinct welcome_addr.id welcome_peers →
      ∃ r, cluster_t.joiner ip port contact_conn welcome_addr welcome_peers connect read_ok
        = .ok r) ∧
    (∀ r, cluster_t.joiner ip port contact_conn welcome_addr welcome_peers connect read_ok = .ok r →
      Distinct welcome_addr.id welcome_peers ∧
      r.c.us = welcome_addr.id ∧
      state_at r.c welcome_addr.id = some PeerState.us ∧
      (∀ i, i ∈ StdMap.keys r.c.peers ↔ i = welcome_addr.id ∨ i ∈ listed_ids welcome_peers) ∧
      (∀ e ∈ welcome_peers,
        (e.state = peer_state.LIVE → state_at r.c e.addr.id = some PeerState.connected) ∧
        (e.state = peer_state.KILLED → state_at r.c e.addr.id = some PeerState.killed))) ∧
    (¬ Distinct welcome_addr.id welcome_peers →
      cluster_t.joiner ip port contact_conn welcome_addr welcome_peers connect read_ok
        = .error (Fault.guarantee "Duplicate entry found")) := by
  refine ⟨?_, ?_, ?_⟩
  · intro hd
    simp only [cluster_t.joiner, write_protob, hcontact, Bool.false_eq_true, if_false]
    exact (join_peers_good connect read_ok welcome_addr welcome_peers _ hio).1
      ⟨hd.1, (fresh_iff_not_listed _ _ _).2 hd.2⟩
  · intro r h
    unfold cluster_t.joiner at h
    split at h
    · exact Except.noConfusion h
    · dsimp only at h
      obtain ⟨a1, a2, a3, _, a5, a6, a7⟩ := join_peers_ok _ _ _ _ _ _ h
      have hk : welcome_addr.id ∉ listed_ids welcome_peers := (fresh_iff_not_listed _ _ _).1 a2
      refine ⟨⟨a1, hk⟩, a3, ?_, ?_, ?_⟩
      · simp [state_at, a6 _ hk, find_singleton]
      · intro i
        rw [a5 i, mem_keys_singleton]
      · intro e he
        exact ⟨fun hl => ((a7 e he).2.1 hl).1, (a7 e he).2.2⟩
  · intro hd
    simp only [cluster_t.joiner, write_protob, hcontact, Bool.false_eq_true, if_false]
    apply (join_peers_good connect read_ok welcome_addr welcome_peers _ hio).2
    intro hg
    exact hd ⟨hg.1, (fresh_iff_not_listed _ _ _).1 hg.2⟩

/-- C11 on two welcomes for id 2: the one listing peer 0 as live and peer 1
as killed is installed; the one listing peer 0 twice stops at the
guarantee. -/
theorem C11_joiner_installs_welcome_witness :
    cluster_t.joiner 7 8 open_conn { ip := 7, port := 8, id := 2 } welcome_two connect_ok echo_ok
      = .ok joined ∧
    joined.c.us = 2 ∧
    StdMap.keys joined.c.peers = [0, 1, 2] ∧
    state_at joined.c 0 = some PeerState.connected ∧
    state_at joined.c 1 = some PeerState.killed ∧
    cluster_t.joiner 7 8 open_conn { ip := 7, port := 8, id := 2 } welcome_twice connect_ok echo_ok
      = .error (Fault.guarantee "Duplicate entry found") :=
  ⟨by decide,
   ((C11_joiner_installs_welcome 7 8 open_conn { ip := 7, port := 8, id := 2 } welcome_two
      connect_ok echo_ok rfl (fun _ _ _ => ⟨rfl, rfl⟩)).2.1 joined (by decide)).2.1,
   by decide, by decide, by decide,
   (C11_joiner_installs_welcome 7 8 open_conn { ip := 7, port := 8, id := 2 } welcome_twice
      connect_ok echo_ok rfl (fun _ _ _ => ⟨rfl, rfl⟩)).2.2
      (by unfold Distinct listed_ids; decide)⟩

/-- C16 refuted: a peer is `connected` before it has any of the five main
services. After lines 230-235 of `handle_known_peer` the record of peer 1 is
`connected` with an empty service set; when `handle_known_peer` returns it
still is, `_start_main_srvcs` being only spawned; and so is the live peer of
a welcome when the joining constructor has processed it. -/
theorem C16_counterexample_connected_without_services :
    state_at (two_nodes PeerState.join_official) 1 = some PeerState.join_official ∧
    (cluster_t.known_peer_connect (two_nodes PeerState.join_official) open_conn
        { ip := 10, port := 20, id := 1 }).map (fun r => (state_at r.c 1, srvcs_at r.c 1))
      = .ok (some PeerState.connected, some []) ∧
    (cluster_t.handle_known_peer (two_nodes PeerState.join_official) open_conn
        { ip := 10, port := 20, id := 1 }).map
          (fun r => (state_at r.c 1, srvcs_at r.c 1, r.spawned))
      = .ok (some PeerState.connected, some [], [1]) ∧
    (cluster_t.joiner 7 8 open_conn { ip := 7, port := 8, id := 2 } welcome_two connect_ok
        echo_ok).map (fun r => (state_at r.c 0, srvcs_at r.c 0, r.spawned))
      = .ok (some PeerState.connected, some [], [0]) := by
  decide

/-- C16 as amended: the five built-in services are attached after the peer
is set to `connected`, by the task `_start_main_srvcs` that
`start_main_srvcs` spawns (lines 237 and 97). At that call, in
`handle_known_peer` for a peer that was `join_official` and in the loop of
the joining constructor for a peer listed `LIVE`, the record is `connected`,
its service set is what it was (empty for the record the constructor has just
created) and the task is pending for it. Once the task has run lines 246-262,
the record, still `connected`, has after its former services
`join_propose_srvc`, `join_mk_official_srvc`, `kill_propose_srvc`,
`kill_mk_official_srvc` and `mailbox_srvc`, in this order, and then the user
services added so far. `handle_known_peer` returns when the connection is
open, and the iteration of the constructor does when the id is fresh, the
connection opens and the echo arrives. -/
theorem C16_main_services_follow_connected (c : cluster_t) (conn : tcp_conn_t)
    (initial : addrinfo) (p : cluster_peer_t)
    (hp : StdMap.find c.peers initial.id = some (some p))
    (hofficial : p.state = PeerState.join_official) (hopen : conn.write_closed = false) :
    (∃ r, cluster_t.handle_known_peer c conn initial = .ok r ∧
      state_at r.c initial.id = some PeerState.connected ∧
      srvcs_at r.c initial.id = some p.srvcs ∧
      r.spawned = [initial.id] ∧
      ∃ c1, cluster_t.attach_srvcs r.c initial.id = .ok c1 ∧
        state_at c1 initial.id = some PeerState.connected ∧
        srvcs_at c1 initial.id = some (p.srvcs ++
          [Srvc.join_propose_srvc, Srvc.join_mk_official_srvc, Srvc.kill_propose_srvc,
           Srvc.kill_mk_official_srvc, Srvc.mailbox_srvc] ++ c.added_srvcs)) ∧
    (∀ (connect : Int → Except Fault tcp_conn_t) (read_ok : Int → Bool) (welcome_addr : addrinfo)
      (r r1 : Spawning) (e : peer), e.state = peer_state.LIVE →
      cluster_t.join_peer connect read_ok welcome_addr r e = .ok r1 →
        state_at r1.c e.addr.id = some PeerState.connected ∧
        srvcs_at r1.c e.addr.id = some [] ∧
        r1.spawned = r.spawned ++ [e.addr.id] ∧
        ∃ c1, cluster_t.attach_srvcs r1.c e.addr.id = .ok c1 ∧
          state_at c1 e.addr.id = some PeerState.connected ∧
          srvcs_at c1 e.addr.id = some
            ([Srvc.join_propose_srvc, Srvc.join_mk_official_srvc, Srvc.kill_propose_srvc,
              Srvc.kill_mk_official_srvc, Srvc.mailbox_srvc] ++ r.c.added_srvcs)) ∧
    (∀ (connect : Int → Except Fault tcp_conn_t) (read_ok : Int → Bool) (welcome_addr : addrinfo)
      (r : Spawning) (e : peer), e.state = peer_state.LIVE →
      StdMap.find r.c.peers e.addr.id = none →
      connect e.addr.id = .ok { write_closed := false } → read_ok e.addr.id = true →
        ∃ r1, cluster_t.join_peer connect read_ok welcome_addr r e = .ok r1) := by
  refine ⟨?_, ?_, ?_⟩
  · have hrun : cluster_t.handle_known_peer c conn initial = .ok
        { c := cluster_t.pulse_peer_join (cluster_t.set_peer c initial.id
            { p with state := PeerState.connected, conn := some conn }) initial.id,
          log := [Event.peer_write initial.id (Wire.Join_initial initial)],
          spawned := [initial.id] } := by
      simp [cluster_t.handle_known_peer, cluster_t.not_official, hp, peer_at_of_find _ _ _ hp,
        hofficial, cluster_t.known_peer_connect, cluster_peer_t.write, hopen,
        cluster_t.start_main_srvcs]
    have hfind : StdMap.find (cluster_t.pulse_peer_join (cluster_t.set_peer c initial.id
        { p with state := PeerState.connected, conn := some conn }) initial.id).peers initial.id
        = some (some { p with state := PeerState.connected, conn := some conn }) := by
      simp only [cluster_t.pulse_peer_join]
      rw [find_set_peer]
      simp
    refine ⟨_, hrun, by simp [state_at, hfind], by simp [srvcs_at, hfind], rfl, ?_⟩
    refine ⟨_, attach_srvcs_of_find _ _ _ hfind, ?_, ?_⟩
    · rw [state_at_set_peer]; simp
    · rw [srvcs_at_set_peer]; simp [cluster_t.pulse_peer_join, cluster_t.set_peer, main_srvcs]
  · intro connect read_ok welcome_addr r r1 e hl h
    unfold cluster_t.join_peer at h
    by_cases hf1 : StdMap.find r.c.peers e.addr.id = none
    · simp only [hf1, ne_eq, not_true_eq_false, if_false, hl] at h
      split at h
      · exact Except.noConfusion h
      · split at h
        · exact Except.noConfusion h
        · by_cases hr : read_ok e.addr.id = true
          · simp only [hr, if_true] at h
            cases Except.ok.inj h
            have hfind : ∀ q : cluster_peer_t,
                StdMap.find (cluster_t.set_peer r.c e.addr.id q).peers e.addr.id
                  = some (some q) := by
              intro q
              rw [find_set_peer]
              simp
            refine ⟨by simp [cluster_t.start_main_srvcs, state_at, hfind],
              by simp [cluster_t.start_main_srvcs, srvcs_at, hfind],
              by simp [cluster_t.start_main_srvcs], ?_⟩
            refine ⟨_, attach_srvcs_of_find _ _ _ (hfind _), ?_, ?_⟩
            · rw [state_at_set_peer]; simp
            · rw [srvcs_at_set_peer]
              simp [cluster_t.set_peer, cluster_t.start_main_srvcs, main_srvcs]
          · simp only [hr] at h
            exact Except.noConfusion h
    · simp only [ne_eq, hf1, not_false_eq_true, if_true] at h
      exact Except.noConfusion h
  · intro connect read_ok welcome_addr r e hl hf h1 h2
    simp [cluster_t.join_peer, hf, hl, h1, h2, cluster_peer_t.write]

/-- C16 as amended, on a founder whose peer 1 is `join_official`: when
`handle_known_peer` returns, `_start_main_srvcs` is pending for peer 1, and
after its lines 246-262 peer 1 has the five built-in services. -/
theorem C16_main_services_follow_connected_witness :
    StdMap.find (two_nodes PeerState.join_official).peers 1
      = some (some (remote_peer 1 PeerState.join_official)) ∧
    ∃ r, cluster_t.handle_known_peer (two_nodes PeerState.join_official) open_conn
        { ip := 10, port := 20, id := 1 } = .ok r ∧
      srvcs_at r.c 1 = some [] ∧
      r.spawned = [1] ∧
      ∃ c1, cluster_t.attach_srvcs r.c 1 = .ok c1 ∧
        srvcs_at c1 1 = some
          [Srvc.join_propose_srvc, Srvc.join_mk_official_srvc, Srvc.kill_propose_srvc,
           Srvc.kill_mk_official_srvc, Srvc.mailbox_srvc] :=
  ⟨by decide,
   (C16_main_services_follow_connected (two_nodes PeerState.join_official) open_conn
      { ip := 10, port := 20, id := 1 } (remote_peer 1 PeerState.join_official)
      (by decide) (by decide) (by decide)).1.imp
      (fun _ hr => ⟨hr.1, hr.2.2.1, hr.2.2.2.1,
        hr.2.2.2.2.imp (fun _ hc => ⟨hc.1, hc.2.2⟩)⟩)⟩

/-! ## Registration -/

/-- C17: in the world of scenario S5, for a registrant that registered
successfully (the registrar holds the registrant of the controller, the
controller has a registrant and the failed signal is not pulsed), once the
registrar is unpublished and dropped and the other tasks have run, the failed
signal is pulsed and the controller has no registrant; the destructor finds
its `EXPECT_TRUE` satisfied. -/
theorem C17_registrar_death_fails_registrant (w : RegistrationWorld)
    (hsub : w.subscribed = true) (hheld : w.holds_registrant = true)
    (hhas : w.controller.has_registrant = true) (_hfailed : w.failed = false) :
    (let_stuff_happen (registrar_reset (unpublish w))).failed = true ∧
    (let_stuff_happen (registrar_reset (unpublish w))).controller.has_registrant = false ∧
    (let_stuff_happen (registrar_reset (unpublish w))).checks = w.checks ++ [true] := by
  cases hr : w.request <;>
    simp [let_stuff_happen, registrar_reset, unpublish, monitoring_controller_t.registrant_dtor,
      hsub, hheld, hhas, hr]

/-- C17 on the test itself: after line 111 the registrant is registered with
the data "hello"; killing the registrar pulses its failed signal and leaves
the controller without registrant, and every `EXPECT` of the test holds. -/
theorem C17_registrar_death_fails_registrant_witness :
    registered_hello.controller = { has_registrant := true, registrant_data := "hello" } ∧
    registered_hello.failed = false ∧
    run_registrar_death_test.checks.all id = true ∧
    (let_stuff_happen (registrar_reset (unpublish registered_hello))).failed = true ∧
    (let_stuff_happen (registrar_reset (unpublish registered_hello))).controller.has_registrant
      = false :=
  ⟨by decide, by decide, by decide,
   (C17_registrar_death_fails_registrant registered_hello (by decide) (by decide) (by decide)
      (by decide)).1,
   (C17_registrar_death_fails_registrant registered_hello (by decide) (by decide) (by decide)
      (by decide)).2.1⟩
